import Mathlib

/-!
Verification development for the `python-ssdb` client library.

The definitions below are shallow embeddings of the Cython sources:

* `src/ssdb/core/parser.pyx`   — byte buffer and incremental frame parser
* `src/ssdb/core/response.pyx` — response interpretation (`wrap_response`)
* `src/ssdb/core/encode.pyx`   — request encoder (`encode_command`)
* `src/ssdb/asyncio/connection.pyx` — connection handshake and pool

Bytes are modelled as natural numbers (the `uint8_t` values actually
stored); byte strings are `List Nat`.  C loops are modelled with explicit
fuel so that every definition is executable, together with lemmas showing
the fuel does not matter once it is large enough.
-/

namespace SSDB

/-! ## Byte-level helpers -/

/-- ASCII decimal digit test, `b'0' <= b <= b'9'` as in `parser.pyx` line 124. -/
def isDigitB (b : Nat) : Bool := 48 ≤ b && b ≤ 57

/-- Position of the first newline byte, mirroring `memchr(ptr, b'\n', length)`
in `Parser.parse`.  Returns the index of the first `10` byte, if any. -/
def findNl : List Nat → Option Nat
  | [] => none
  | b :: rest => if b = 10 then some 0 else (findNl rest).map (fun i => i + 1)

/-- Accumulator loop of C `atoi`: consume leading ASCII digits, stop at the
first non-digit.  (The buffer handed to `atoi` in `Parser.parse` always starts
with a digit, which the code checks beforehand.) -/
def atoiGo : Nat → List Nat → Nat
  | acc, [] => acc
  | acc, b :: rest => if isDigitB b then atoiGo (10 * acc + (b - 48)) rest else acc

/-- C `atoi` on the (NUL-padded) header bytes: value of the leading digit run. -/
def atoi (l : List Nat) : Nat := atoiGo 0 l

/-- The parsed size is stored in a C `int` (`cdef int sz`); model the
conversion of the mathematical digit value into a wrapping 32-bit signed
integer.  For every header produced by the wire grammar the value is below
`2^31` and the wrap is the identity. -/
def int32wrap (n : Nat) : Int :=
  let m := n % 4294967296
  if m < 2147483648 then (m : Int) else (m : Int) - 4294967296

/-! ## The parser (`Parser.parse`, `parser.pyx` lines 100-154)

`Parser.parse` is a `while` loop over the buffer.  Each iteration either

* finds no `\n` and exits with `EUNFINISH`;
* sees an empty line (`\n` or `\r\n`) where a length header would start and
  returns `OK` after removing everything up to and including it;
* rejects the header (`EBADFMT`);
* or consumes one complete blob (header, payload, terminator) and loops.

`parseStep` is the body of one iteration, acting on the not-yet-scanned
suffix of the buffer; `parseLoopF` iterates it with explicit fuel. -/

inductive Step where
  /-- Empty line found where a header would start: the frame is complete and
  `consumed` bytes (from the start of the suffix) are to be removed. -/
  | done (consumed : Nat)
  /-- One blob parsed: payload `v`, total `consumed` bytes including header
  and terminator. -/
  | blob (v : List Nat) (consumed : Nat)
  /-- `EBADFMT`. -/
  | bad
  /-- `EUNFINISH` (incomplete data). -/
  | unfin
deriving DecidableEq, Repr

/-- One iteration of the `Parser.parse` loop on the unscanned suffix `rest`.
Mirrors `parser.pyx` lines 111-153 clause by clause. -/
def parseStep (rest : List Nat) : Step :=
  match findNl rest with
  | none => .unfin
  | some nl =>
    let dis := nl + 1
    if dis = 1 ∨ (dis = 2 ∧ rest.head? = some 13) then .done dis
    else if ¬ isDigitB (rest.headD 0) then .bad
    else if 19 < dis then .bad
    else
      let szI := int32wrap (atoi (rest.take (dis - 1)))
      if szI < 0 then .bad
      else
        let sz := szI.toNat
        let jump := dis + sz
        if rest.length < jump then .unfin
        else
          let after := rest.drop jump
          if after.head? = some 10 then .blob ((rest.drop dis).take sz) (jump + 1)
          else if after.head? = some 13 ∧ (after.drop 1).head? = some 10 then
            .blob ((rest.drop dis).take sz) (jump + 2)
          else .unfin

/-- Result of a whole parse attempt (`Status` in `parser.pyx`):
`ok values consumed`, `EBADFMT`, or `EUNFINISH`. -/
inductive PR where
  | ok (vals : List (List Nat)) (consumed : Nat)
  | badfmt
  | unfinished
deriving DecidableEq, Repr

/-- The `Parser.parse` loop, with fuel bounding the number of iterations.
Each productive iteration consumes at least three bytes, so fuel
`length + 1` is always sufficient (`parseLoopF_fuel` below). -/
def parseLoopF : Nat → List Nat → PR
  | 0, _ => .unfinished
  | fuel + 1, rest =>
    match parseStep rest with
    | .done c => .ok [] c
    | .bad => .badfmt
    | .unfin => .unfinished
    | .blob v c =>
      match parseLoopF fuel (rest.drop c) with
      | .ok vs c2 => .ok (v :: vs) (c + c2)
      | r => r

/-- `Parser.parse` on the current buffer contents. -/
def parse (buf : List Nat) : PR := parseLoopF (buf.length + 1) buf

/-! ## Reader (`Reader.get` / `Reader.feed`, `parser.pyx` lines 157-182)

The buffer is modelled by the list of its live bytes (`data[0..size)`);
`Buffer.remove` shifts the suffix to offset 0, which in the list model is
`List.drop`.  (When `size > self.size` the C code sets `size = 0`, which
also agrees with `List.drop`.) -/

inductive GetRes where
  /-- A complete frame was extracted; `buf` is the remaining buffer. -/
  | frame (vals : List (List Nat)) (buf : List Nat)
  /-- `Reader.get` returned `None` (incomplete); the buffer is untouched. -/
  | nothing (buf : List Nat)
  /-- `BadFormatError` raised; the buffer is untouched. -/
  | badfmt (buf : List Nat)
deriving DecidableEq, Repr

/-- `Reader.get`: run `Parser.parse`; on `OK` the parsed values are returned
and `Buffer.remove(ch - start)` drops the consumed prefix. -/
def readerGet (buf : List Nat) : GetRes :=
  match parse buf with
  | .ok vs c => .frame vs (buf.drop c)
  | .badfmt => .badfmt buf
  | .unfinished => .nothing buf

/-- Hard buffer limit, `BUF_MAX_SIZE = 16 MiB`. -/
def BUF_MAX : Nat := 16777216

/-- `Reader.feed` at the level of buffer contents: `Buffer.put` grows the
buffer to `size + len(chunk)` and fails with `ENOMEM` (here `none`) when
that exceeds `BUF_MAX_SIZE`; otherwise the bytes are appended.  The capacity
bookkeeping of `Buffer.grow` does not change the content and is modelled
separately (`CBuf` below) for the `clear`/`grow` claims. -/
def readerFeed (buf chunk : List Nat) : Option (List Nat) :=
  if BUF_MAX < buf.length + chunk.length then none else some (buf ++ chunk)

/-- Feed a sequence of chunks, attempting `Reader.get` after each feed, and
collect every complete frame extracted along the way.  Returns `none` if a
feed fails with `ENOMEM` or a parse attempt reports `BadFormatError`. -/
def runChunks : List (List Nat) → List Nat → Option (List (List (List Nat)) × List Nat)
  | [], buf => some ([], buf)
  | c :: cs, buf =>
    match readerFeed buf c with
    | none => none
    | some buf1 =>
      match readerGet buf1 with
      | .frame vs buf2 => (runChunks cs buf2).map (fun p => (vs :: p.1, p.2))
      | .nothing buf2 => runChunks cs buf2
      | .badfmt _ => none

/-! ## Buffer capacity model (`Buffer`, `parser.pyx` lines 34-87)

`CBuf` records what the content model elides: whether the backing storage
is allocated (`data != NULL`), and the capacity.  `__cinit__` allocates
`INITIAL_BUF_SIZE = 8192`; `clear` frees the storage and zeroes `cap`. -/

structure CBuf where
  alive : Bool
  content : List Nat
  cap : Nat
deriving DecidableEq, Repr

/-- Freshly constructed buffer (`__cinit__`). -/
def CBuf.init : CBuf := ⟨true, [], 8192⟩

/-- `Buffer.clear`: free the storage, zero `size` and `cap`. -/
def CBuf.clear (_ : CBuf) : CBuf := ⟨false, [], 0⟩

/-- Capacity-doubling loop of `Buffer.grow` (`while cap < size: cap *= 2`),
with fuel; `none` means the loop has not exited within `fuel` iterations. -/
def growCapF : Nat → Nat → Nat → Option Nat
  | 0, _, _ => none
  | fuel + 1, cap, size => if cap < size then growCapF fuel (cap * 2) size else some cap

/-- Result of `Buffer.put` in the capacity model.  `diverge` marks the case
in which the doubling loop of `Buffer.grow` never terminates. -/
inductive PutRes where
  | ok (b : CBuf)
  | enomem
  | diverge
deriving DecidableEq, Repr

/-- `Buffer.put`: grow to `size + len(chunk)` then append.  Mirrors
`Buffer.grow` (lines 51-70) followed by the `memcpy` of `put` (72-79):
reject when the required size exceeds `BUF_MAX_SIZE`, keep the capacity
when it already suffices, otherwise run the doubling loop. -/
def CBuf.put (b : CBuf) (chunk : List Nat) (fuel : Nat) : PutRes :=
  let need := b.content.length + chunk.length
  if BUF_MAX < need then .enomem
  else if need ≤ b.cap then .ok { b with content := b.content ++ chunk, alive := true }
  else
    match growCapF fuel b.cap need with
    | some c => .ok { alive := true, content := b.content ++ chunk, cap := c }
    | none => .diverge

/-! ## Wire grammar of a frame (spec §4.2 / §6)

A blob is `<ascii-decimal-length>` + terminator + payload + terminator,
where each terminator is `\n` or `\r\n`; a frame is a list of blobs
followed by an empty line (`\n` or `\r\n`). -/

/-- ASCII decimal digits of `n`, most significant first, with fuel. -/
def natDigitsF : Nat → Nat → List Nat
  | 0, _ => []
  | fuel + 1, n => if n < 10 then [48 + n] else natDigitsF fuel (n / 10) ++ [48 + n % 10]

/-- ASCII decimal digits of `n` (`b"%d"` formatting / the wire length). -/
def natDigits (n : Nat) : List Nat := natDigitsF (n + 1) n

/-- A line terminator: `\r\n` when `cr` is set, else `\n`. -/
def termB (cr : Bool) : List Nat := if cr then [13, 10] else [10]

/-- Wire encoding of one blob; `hcr`/`tcr` choose `\r\n` for the header and
trailing terminator respectively. -/
def encBlob (hcr tcr : Bool) (b : List Nat) : List Nat :=
  natDigits b.length ++ termB hcr ++ b ++ termB tcr

/-- One blob of a frame together with its terminator choices. -/
structure BlobSpec where
  payload : List Nat
  hcr : Bool
  tcr : Bool
deriving DecidableEq, Repr

/-- Wire encoding of a complete frame: the encoded blobs followed by an
empty line (`\n` or `\r\n` according to `fcr`). -/
def encFrame : List BlobSpec → Bool → List Nat
  | [], fcr => termB fcr
  | s :: rest, fcr => encBlob s.hcr s.tcr s.payload ++ encFrame rest fcr

/-! ## Response interpretation (`response.pyx`)

Blobs are byte strings (`List Nat`); command names are Lean `String`s (they
are Python `str` literals compared by equality). -/

def REQUEST_FOR_NO_RESPONSE : List String := ["ping", "qset"]

def REQUEST_FOR_INT_RESPONSE : List String :=
  ["auth", "dbsize",
   "set", "setx", "setnx", "expire", "ttl",
   "del", "incr", "decr", "exists", "getbit", "setbit",
   "bitcount", "countbit", "strlen", "multi_set", "multi_del",
   "hset", "hdel", "hincr", "hdecr", "hexists", "hsize", "hclear", "multi_hset", "multi_hdel",
   "zset", "zget", "zdel", "zincr", "zdecr", "zexists", "zsize", "zrank", "zrrank", "zclear",
   "zcount", "zsum", "zremrangebyrank", "zremrangebyscore", "multi_zset", "multi_zdel",
   "qsize", "qclear", "qpush", "qpush_front", "qpush_back", "qtrim_front", "qtrim_back"]

def REQUEST_FOR_FLOAT_RESPONSE : List String := ["zavg"]

def REQUEST_FOR_BYTE_RESPONSE : List String :=
  ["version", "get", "getset", "substr", "hget", "qfront", "qback", "qget"]

def REQUEST_FOR_LIST_RESPONSE : List String :=
  ["info", "keys", "rkeys", "hlist", "hrlist", "hkeys", "zlist", "zrlist", "zkeys",
   "qlist", "qrlist", "qrange", "qslice", "qpop", "qpop_front", "qpop_back"]

def REQUEST_FOR_STR_MAP_RESPONSE : List String := ["multi_get", "hgetall", "multi_hget"]

def REQUEST_FOR_INT_MAP_RESPONSE : List String :=
  ["multi_exists", "multi_hexists", "multi_hsize", "zrange", "zrrange",
   "zpop_front", "zpop_back", "multi_zget", "multi_zexists", "multi_zsize"]

def REQUEST_FOR_STR_MAP_SCAN_RESPONSE : List String := ["scan", "rscan", "hscan", "hrscan"]

def REQUEST_FOR_INT_MAP_SCAN_RESPONSE : List String := ["zscan", "zrscan"]

/-- The status blob `b"ok"`. -/
def okB : List Nat := [111, 107]

/-- The status blob `b"not_found"`. -/
def notFoundB : List Nat := [110, 111, 116, 95, 102, 111, 117, 110, 100]

/-- Python `bytes.isdigit()`: nonempty and every byte an ASCII digit. -/
def pyIsdigit (v : List Nat) : Bool := !v.isEmpty && v.all isDigitB

/-- ASCII whitespace as stripped by Python `int(bytes)`. -/
def isPySpace (b : Nat) : Bool := b = 32 || b = 9 || b = 10 || b = 13 || b = 11 || b = 12

/-- Python `int(bytes)`: optional surrounding ASCII whitespace, optional
sign, then one or more ASCII digits; anything else raises `ValueError`
(`none` here).  Underscore digit separators are not modelled; no claim in
this development evaluates `int()` on an input containing them. -/
def pyInt (l : List Nat) : Option Int :=
  let l1 := ((l.dropWhile isPySpace).reverse.dropWhile isPySpace).reverse
  match l1 with
  | 45 :: rest =>
    if rest ≠ [] ∧ rest.all isDigitB then some (-(atoi rest : Int)) else Option.none
  | 43 :: rest =>
    if rest ≠ [] ∧ rest.all isDigitB then some ((atoi rest : Int)) else Option.none
  | rest =>
    if rest ≠ [] ∧ rest.all isDigitB then some ((atoi rest : Int)) else Option.none

/-- The value stored for a pair in `to_int_map`/`to_int_map_for_scan`:
`int(v) if v.isdigit() else -1`.  (For an all-digit byte string Python
`int` returns exactly the decimal value, i.e. `atoi`.) -/
def intCoerce (v : List Nat) : Int := if pyIsdigit v then (atoi v : Int) else -1

/-- Insertion into a Python `dict` built by iteration: an existing key keeps
its position and gets the new value, a new key is appended.  The model keeps
the dict as its ordered list of key/value pairs. -/
def dictInsert {α : Type} (m : List (List Nat × α)) (k : List Nat) (v : α) :
    List (List Nat × α) :=
  if m.any (fun p => p.1 = k) then m.map (fun p => if p.1 = k then (p.1, v) else p)
  else m ++ [(k, v)]

/-- Consecutive pairs `(resp[i], resp[i+1])` for `i in range(0, N, 2)`. -/
def listPairs {α : Type} : List α → List (α × α)
  | a :: b :: rest => (a, b) :: listPairs rest
  | _ => []

/-- Exceptions raised by `wrap_response` and its helpers. -/
inductive PyExc where
  /-- `ConnectionError("Connection closed")` on an empty frame. -/
  | connectionClosed
  /-- `RuntimeError("Invalid response")` on an odd-length map body. -/
  | runtimeInvalid
  /-- `RuntimeError(f"{cmd} is unknown command")`. -/
  | unknownCommand (cmd : String)
  /-- `RuntimeError(status.decode("utf-8"))` for a status other than
  `ok`/`not_found`; carries the raw status bytes. -/
  | remoteError (status : List Nat)
  /-- `IndexError` from `resp[0]` on an empty body. -/
  | indexError
  /-- `ValueError` from `int(...)`. -/
  | valueError
deriving DecidableEq, Repr

/-- Values returned by `wrap_response`.  `float(resp[0])` is kept symbolic
(the raw bytes) since no claim depends on float parsing. -/
inductive RVal where
  | none
  | int (i : Int)
  | float (raw : List Nat)
  | bytes (b : List Nat)
  | list (l : List (List Nat))
  | strMap (m : List (List Nat × List Nat))
  | intMap (m : List (List Nat × Int))
  | strMapScan (cursor : Option (List Nat)) (m : List (List Nat × List Nat))
  | intMapScan (cursor : Option (List Nat)) (m : List (List Nat × Int))
deriving DecidableEq, Repr

/-- `to_str_map` (`response.pyx` lines 59-63). -/
def to_str_map (resp : List (List Nat)) : Except PyExc (List (List Nat × List Nat)) :=
  if resp.length % 2 ≠ 0 then .error .runtimeInvalid
  else .ok ((listPairs resp).foldl (fun m p => dictInsert m p.1 p.2) [])

/-- `to_int_map` (`response.pyx` lines 66-77). -/
def to_int_map (resp : List (List Nat)) : Except PyExc (List (List Nat × Int)) :=
  if resp.length % 2 ≠ 0 then .error .runtimeInvalid
  else .ok ((listPairs resp).foldl (fun m p => dictInsert m p.1 (intCoerce p.2)) [])

/-- `to_str_map_for_scan` (`response.pyx` lines 80-93); `resp[N-2]` is the
scan cursor (defined because `N` is even and nonzero). -/
def to_str_map_for_scan (resp : List (List Nat)) :
    Except PyExc (Option (List Nat) × List (List Nat × List Nat)) :=
  if resp.length % 2 ≠ 0 then .error .runtimeInvalid
  else if resp.length = 0 then .ok (Option.none, [])
  else .ok (some (resp.getD (resp.length - 2) []),
    (listPairs resp).foldl (fun m p => dictInsert m p.1 p.2) [])

/-- `to_int_map_for_scan` (`response.pyx` lines 96-111). -/
def to_int_map_for_scan (resp : List (List Nat)) :
    Except PyExc (Option (List Nat) × List (List Nat × Int)) :=
  if resp.length % 2 ≠ 0 then .error .runtimeInvalid
  else if resp.length = 0 then .ok (Option.none, [])
  else .ok (some (resp.getD (resp.length - 2) []),
    (listPairs resp).foldl (fun m p => dictInsert m p.1 (intCoerce p.2)) [])

/-- `wrap_response` (`response.pyx` lines 114-146), clause by clause: empty
frame, `not_found`, `ok` with the nine class tests in source order, any
other status. -/
def wrap_response (cmd : String) (resp0 : List (List Nat)) : Except PyExc RVal :=
  if resp0.length = 0 then .error .connectionClosed
  else
    let status := resp0.headD []
    let body := resp0.tail
    if status = notFoundB then .ok .none
    else if status = okB then
      if cmd ∈ REQUEST_FOR_NO_RESPONSE then .ok .none
      else if cmd ∈ REQUEST_FOR_INT_RESPONSE then
        match body.head? with
        | Option.none => .error .indexError
        | some v =>
          match pyInt v with
          | Option.none => .error .valueError
          | some i => .ok (.int i)
      else if cmd ∈ REQUEST_FOR_FLOAT_RESPONSE then
        match body.head? with
        | Option.none => .error .indexError
        | some v => .ok (.float v)
      else if cmd ∈ REQUEST_FOR_BYTE_RESPONSE then
        match body.head? with
        | Option.none => .error .indexError
        | some v => .ok (.bytes v)
      else if cmd ∈ REQUEST_FOR_LIST_RESPONSE then .ok (.list body)
      else if cmd ∈ REQUEST_FOR_STR_MAP_RESPONSE then (to_str_map body).map RVal.strMap
      else if cmd ∈ REQUEST_FOR_INT_MAP_RESPONSE then (to_int_map body).map RVal.intMap
      else if cmd ∈ REQUEST_FOR_STR_MAP_SCAN_RESPONSE then
        (to_str_map_for_scan body).map (fun p => RVal.strMapScan p.1 p.2)
      else if cmd ∈ REQUEST_FOR_INT_MAP_SCAN_RESPONSE then
        (to_int_map_for_scan body).map (fun p => RVal.intMapScan p.1 p.2)
      else .error (.unknownCommand cmd)
    else .error (.remoteError status)

/-! ## Request encoder (`encode.pyx`) -/

/-- UTF-8 encoding of one scalar value (standard four ranges). -/
def utf8EncodeChar (c : Char) : List Nat :=
  let n := c.toNat
  if n < 128 then [n]
  else if n < 2048 then [192 + n / 64, 128 + n % 64]
  else if n < 65536 then [224 + n / 4096, 128 + n / 64 % 64, 128 + n % 64]
  else [240 + n / 262144, 128 + n / 4096 % 64, 128 + n / 64 % 64, 128 + n % 64]

/-- `str.encode("utf-8")`. -/
def utf8Bytes (s : String) : List Nat := (s.data.map utf8EncodeChar).flatten

/-- An argument accepted by `encode_command`: Python `str`, `int` or
`bytes`. -/
inductive Arg where
  | txt (s : String)
  | intg (i : Int)
  | raw (b : List Nat)
deriving DecidableEq, Repr

/-- Python `str(i)` for an `int`, as bytes (ASCII decimal, `-` sign). -/
def intStr (i : Int) : List Nat :=
  if i < 0 then 45 :: natDigits i.natAbs else natDigits i.toNat

/-- `utf8_encode` (`encode.pyx` lines 4-6): ints via `str`, strings UTF-8
encoded, bytes passed through. -/
def utf8_encode : Arg → List Nat
  | .txt s => utf8Bytes s
  | .intg i => intStr i
  | .raw b => b

/-- One wire token: `b"%d\n%s\n" % (len(t), t)`. -/
def encTok (t : List Nat) : List Nat := natDigits t.length ++ 10 :: (t ++ [10])

/-- `encode_command` (`encode.pyx` lines 9-15): rename `delete` to `del`,
encode every token, join, and add the terminating newline. -/
def encode_command (cmd : String) (args : List Arg) : List Nat :=
  let cmd2 := if cmd = "delete" then "del" else cmd
  let toks := utf8Bytes cmd2 :: args.map utf8_encode
  ((toks.map encTok).flatten) ++ [10]

/-- Modelled from the spec (§4.3/§6): for each token `t` emit
`ASCII(len(t)) + "\n" + t + "\n"`, then one extra `"\n"`; the name
`"delete"` is rewritten to `"del"`.  Reference definition for the encoder
refinement claim. -/
def encodeSpec (cmd : String) (args : List Arg) : List Nat :=
  let toks := utf8Bytes (if cmd = "delete" then "del" else cmd) :: args.map utf8_encode
  toks.foldr (fun t acc => natDigits t.length ++ [10] ++ t ++ [10] ++ acc) [10]

/-! ## Connection pool accounting (`connection.pyx` lines 133-220)

Connections are identified by the order in which `make_connection` creates
them.  The model covers a single-process run (`checkpid` never fires, so
`owns_connection` is always true).  Callers hold exactly the connections in
`in_use_connections`; a `release` of a connection that is not leased is a
protocol violation and modelled as a no-op. -/

def INT32_MAX : Nat := 2147483647

/-- `max_connections if max_connections > 0 else INT32_MAX`. -/
def normMax (m : Int) : Nat := if 0 < m then m.toNat else INT32_MAX

structure PoolState where
  created : Nat
  available : List Nat
  inUse : List Nat
  nextId : Nat
deriving DecidableEq, Repr

/-- `ConnectionPool.reset`: the state of a freshly constructed pool. -/
def poolInit : PoolState := ⟨0, [], [], 0⟩

/-- `ConnectionPool.release` (lines 173-183) in a single-process run:
remove from `in_use_connections` if present; the pool owns the connection,
so it is appended to `available_connections`. -/
def poolRelease (s : PoolState) (c : Nat) : PoolState :=
  { s with inUse := s.inUse.erase c, available := s.available ++ [c] }

inductive PoolOp where
  /-- `get_connection` (lines 185-208).  `ioOk = false` models
  `connect()`/`in_use()` raising: the `except` clause releases the
  connection and re-raises. -/
  | lease (ioOk : Bool)
  /-- `release` of connection `c` currently held by the caller. -/
  | release (c : Nat)
  /-- `ConnectionPool.disconnect` (lines 210-220): disconnects sockets but
  leaves `created_connections`, `available_connections` and
  `in_use_connections` untouched. -/
  | disconnectAll
deriving DecidableEq, Repr

/-- One pool operation.  `available_connections.pop()` takes the last
element (LIFO); `make_connection` raises `ConnectionError` without touching
any state when `created_connections >= max_connections`. -/
def poolStep (maxC : Nat) (s : PoolState) : PoolOp → PoolState
  | .lease ioOk =>
    match s.available.getLast? with
    | some c =>
      let s1 := { s with available := s.available.dropLast, inUse := s.inUse ++ [c] }
      if ioOk then s1 else poolRelease s1 c
    | Option.none =>
      if maxC ≤ s.created then s
      else
        let c := s.nextId
        let s1 := { s with created := s.created + 1, nextId := s.nextId + 1,
                           inUse := s.inUse ++ [c] }
        if ioOk then s1 else poolRelease s1 c
  | .release c => if c ∈ s.inUse then poolRelease s c else s
  | .disconnectAll => s

/-- Run a sequence of pool operations from a fresh pool. -/
def poolRun (maxC : Nat) (ops : List PoolOp) : PoolState :=
  ops.foldl (poolStep maxC) poolInit

/-- The pool accounting invariant (spec §3), with the bookkeeping needed to
make it inductive: `created_connections = |available| + |in_use|`, the bound
by `max_connections`, no duplicates, disjointness, and freshness of ids. -/
def PoolInv (maxC : Nat) (s : PoolState) : Prop :=
  s.created = s.available.length + s.inUse.length ∧
  s.created ≤ maxC ∧
  s.available.Nodup ∧
  s.inUse.Nodup ∧
  (∀ c ∈ s.available, c ∉ s.inUse) ∧
  (∀ c ∈ s.available, c < s.nextId) ∧
  (∀ c ∈ s.inUse, c < s.nextId)

/-! ## The lease I/O path of `get_connection` (`connection.pyx` 194-208)

The oracle `LeaseEnv` fixes the outcome of each awaited primitive:
`connect()` (initial and during reconnect) and `in_use()` (first and second
probe).  `in_use()` returning `True` makes `get_connection` raise
`ConnectionError("Connection in use")`, which the inner
`except ConnectionError` turns into a reconnect; a `ConnectionError` raised
by `in_use` itself (a closed socket during the non-blocking read) is caught
by the same handler; any other exception escapes to the outer handler. -/

inductive ConnectRes where
  | ok
  | connErr
  | otherErr
deriving DecidableEq, Repr, Fintype

inductive ProbeRes where
  /-- `in_use()` returned `False`. -/
  | idle
  /-- `in_use()` returned `True` (stray data present). -/
  | dataPresent
  /-- `in_use()` raised a `ConnectionError`. -/
  | connErr
  /-- `in_use()` raised a non-`ConnectionError` exception. -/
  | otherErr
deriving DecidableEq, Repr, Fintype

structure LeaseEnv where
  connect1 : ConnectRes
  probe1 : ProbeRes
  connect2 : ConnectRes
  probe2 : ProbeRes
deriving DecidableEq, Repr, Fintype

inductive LeaseErr where
  /-- The initial `connect()` raised; released and re-raised. -/
  | connectFail
  /-- `in_use()` raised a non-`ConnectionError`; released and re-raised. -/
  | probeOther
  /-- The reconnect `connect()` raised. -/
  | reconnectFail
  /-- `ConnectionError("Connection not ready")`: second probe still saw
  data. -/
  | notReady
  /-- The second `in_use()` raised a `ConnectionError`. -/
  | secondProbeConn
  /-- The second `in_use()` raised a non-`ConnectionError`. -/
  | secondProbeOther
deriving DecidableEq, Repr, Fintype

structure LeaseResult where
  ok : Bool
  err : Option LeaseErr
  /-- Number of times the `disconnect(); connect(); in_use()` reconnect
  sequence was entered. -/
  reconnects : Nat
  /-- Whether `release(connection)` ran before the exception propagated. -/
  released : Bool
deriving DecidableEq, Repr

/-- The post-lock body of `get_connection`: `try: connect(); try: probe
except ConnectionError: reconnect; except Exception: release; raise`. -/
def get_connection_io (env : LeaseEnv) : LeaseResult :=
  match env.connect1 with
  | .connErr => ⟨false, some .connectFail, 0, true⟩
  | .otherErr => ⟨false, some .connectFail, 0, true⟩
  | .ok =>
    match env.probe1 with
    | .idle => ⟨true, Option.none, 0, false⟩
    | .otherErr => ⟨false, some .probeOther, 0, true⟩
    | _ =>
      match env.connect2 with
      | .connErr => ⟨false, some .reconnectFail, 1, true⟩
      | .otherErr => ⟨false, some .reconnectFail, 1, true⟩
      | .ok =>
        match env.probe2 with
        | .idle => ⟨true, Option.none, 1, false⟩
        | .dataPresent => ⟨false, some .notReady, 1, true⟩
        | .connErr => ⟨false, some .secondProbeConn, 1, true⟩
        | .otherErr => ⟨false, some .secondProbeOther, 1, true⟩

/-! ## The auth handshake of `Connection.connect` (`connection.pyx` 72-89) -/

/-- A Python value passed as the `args` parameter of `send_command`. -/
inductive PyArgVal where
  | tupleVal (args : List Arg)
  | strVal (s : String)
deriving DecidableEq, Repr

inductive SendRes where
  | sent (wire : List Nat)
  | typeError
deriving DecidableEq, Repr

/-- `Connection.send_command(self, str cmd, tuple args)`: the Cython-typed
`tuple args` parameter raises `TypeError` for any non-tuple argument before
a single byte is encoded or written; with a tuple it writes
`encode_command(cmd, args)`. -/
def send_command (cmd : String) (args : PyArgVal) : SendRes :=
  match args with
  | .tupleVal l => .sent (encode_command cmd l)
  | .strVal _ => .typeError

/-- Outcome of the single `read_response()` in the handshake. -/
inductive ReadOutcome where
  | frame (f : List (List Nat))
  | ioError
deriving DecidableEq, Repr

structure AuthResult where
  authSent : Bool
  typeError : Bool
  invalidPassword : Bool
  disconnected : Bool
deriving DecidableEq, Repr

/-- Auth phase of `Connection.connect` (lines 84-89): it calls
`self.send_command("auth", self.password)` — passing the password string
itself where `send_command` declares `tuple args` — then reads one frame
guarded by `except Exception: raise RuntimeError("Invalid password")`.  The
returned frame's status is never inspected, and no `disconnect()` occurs on
this path. -/
def connect_auth (password : Option String) (read1 : ReadOutcome) : AuthResult :=
  match password with
  | Option.none => ⟨false, false, false, false⟩
  | some p =>
    match send_command "auth" (.strVal p) with
    | .typeError => ⟨false, true, false, false⟩
    | .sent _ =>
      match read1 with
      | .frame _ => ⟨true, false, false, false⟩
      | .ioError => ⟨true, false, true, false⟩

/-! ## Lemmas about decimal digits and `atoi` -/

theorem natDigitsF_digits (fuel : Nat) :
    ∀ n, n < fuel → ∀ x ∈ natDigitsF fuel n, 48 ≤ x ∧ x ≤ 57 := by
  induction fuel with
  | zero => intro n hn; omega
  | succ f ih =>
    intro n hn x hx
    simp only [natDigitsF] at hx
    by_cases h : n < 10
    · simp only [if_pos h, List.mem_singleton] at hx
      omega
    · simp only [if_neg h, List.mem_append, List.mem_singleton] at hx
      rcases hx with hx | hx
      · exact ih (n / 10) (by omega) x hx
      · have := Nat.mod_lt n (show 0 < 10 by omega)
        omega

theorem natDigitsF_ne_nil (fuel : Nat) :
    ∀ n, n < fuel → natDigitsF fuel n ≠ [] := by
  induction fuel with
  | zero => intro n hn; omega
  | succ f _ =>
    intro n _
    simp only [natDigitsF]
    by_cases h : n < 10
    · simp [h]
    · simp [h]

theorem natDigitsF_length_le (fuel : Nat) :
    ∀ n k, n < fuel → n < 10 ^ k → 1 ≤ k → (natDigitsF fuel n).length ≤ k := by
  induction fuel with
  | zero => intro n k hn; omega
  | succ f ih =>
    intro n k hn hk hk1
    simp only [natDigitsF]
    by_cases h : n < 10
    · simp [h, hk1]
    · have hk2 : 2 ≤ k := by
        by_contra hc
        interval_cases k
        · simp at hk; omega
      have hdiv : n / 10 < 10 ^ (k - 1) := by
        have h10 : (10 : Nat) ^ k = 10 ^ (k - 1) * 10 := by
          have : k - 1 + 1 = k := by omega
          calc (10 : Nat) ^ k = 10 ^ (k - 1 + 1) := by rw [this]
          _ = 10 ^ (k - 1) * 10 := by rw [pow_succ]
        exact (Nat.div_lt_iff_lt_mul (by omega)).mpr (by omega)
      have := ih (n / 10) (k - 1) (by omega) hdiv (by omega)
      simp only [if_neg h, List.length_append, List.length_singleton]
      omega

theorem atoiGo_append_digits {l : List Nat} (hl : ∀ x ∈ l, isDigitB x = true) :
    ∀ acc r, atoiGo acc (l ++ r) = atoiGo (atoiGo acc l) r := by
  induction l with
  | nil => intro acc r; rfl
  | cons b t ih =>
    intro acc r
    have hb : isDigitB b = true := hl b (List.mem_cons_self b t)
    simp only [List.cons_append, atoiGo, hb, if_pos]
    exact ih (fun x hx => hl x (List.mem_cons_of_mem b hx)) _ r

theorem atoiGo_natDigitsF (fuel : Nat) :
    ∀ n acc, n < fuel →
      atoiGo acc (natDigitsF fuel n) = acc * 10 ^ (natDigitsF fuel n).length + n := by
  induction fuel with
  | zero => intro n acc hn; omega
  | succ f ih =>
    intro n acc hn
    simp only [natDigitsF]
    by_cases h : n < 10
    · have hd : isDigitB (48 + n) = true := by simp [isDigitB]; omega
      simp only [if_pos h, atoiGo, hd, if_pos, List.length_singleton]
      omega
    · have hdig : ∀ x ∈ natDigitsF f (n / 10), isDigitB x = true := by
        intro x hx
        have := natDigitsF_digits f (n / 10) (by omega) x hx
        simp [isDigitB]; omega
      have hmod : isDigitB (48 + n % 10) = true := by
        have := Nat.mod_lt n (show 0 < 10 by omega)
        simp [isDigitB]; omega
      simp only [if_neg h]
      rw [atoiGo_append_digits hdig, ih (n / 10) acc (by omega)]
      simp only [atoiGo, hmod, if_pos, List.length_append, List.length_singleton]
      have hnm : 10 * (n / 10) + n % 10 = n := by omega
      rw [pow_succ]
      ring_nf
      omega

theorem natDigits_digits (n : Nat) : ∀ x ∈ natDigits n, 48 ≤ x ∧ x ≤ 57 :=
  natDigitsF_digits (n + 1) n (Nat.lt_succ_self n)

theorem natDigits_ne_nil (n : Nat) : natDigits n ≠ [] :=
  natDigitsF_ne_nil (n + 1) n (Nat.lt_succ_self n)

theorem natDigits_length_le {n k : Nat} (hk : n < 10 ^ k) (hk1 : 1 ≤ k) :
    (natDigits n).length ≤ k :=
  natDigitsF_length_le (n + 1) n k (Nat.lt_succ_self n) hk hk1

theorem natDigits_no_nl {n : Nat} : ∀ x ∈ natDigits n, x ≠ 10 := by
  intro x hx
  have := natDigits_digits n x hx
  omega

theorem natDigits_head_digit (n : Nat) : isDigitB ((natDigits n).headD 0) = true := by
  rcases hd : natDigits n with _ | ⟨b, t⟩
  · exact absurd hd (natDigits_ne_nil n)
  · have : b ∈ natDigits n := by rw [hd]; exact List.mem_cons_self b t
    have := natDigits_digits n b this
    simp [isDigitB]; omega

theorem atoi_natDigits (n : Nat) : atoi (natDigits n) = n := by
  unfold atoi natDigits
  rw [atoiGo_natDigitsF (n + 1) n 0 (Nat.lt_succ_self n)]
  omega

theorem atoi_natDigits_stop {n s : Nat} (hs : isDigitB s = false) (r : List Nat) :
    atoi (natDigits n ++ s :: r) = n := by
  unfold atoi
  have hdig : ∀ x ∈ natDigits n, isDigitB x = true := by
    intro x hx
    have := natDigits_digits n x hx
    simp [isDigitB]; omega
  rw [atoiGo_append_digits hdig]
  have h0 : atoiGo 0 (natDigits n) = n := atoi_natDigits n
  rw [h0]
  simp [atoiGo, hs]

/-! ## Lemmas about `findNl` -/

theorem findNl_eq_some_lt : ∀ {l : List Nat} {i : Nat}, findNl l = some i → i < l.length := by
  intro l
  induction l with
  | nil => intro i h; simp [findNl] at h
  | cons b t ih =>
    intro i h
    by_cases hb : b = 10
    · simp [findNl, hb] at h
      simp only [List.length_cons]
      omega
    · cases hft : findNl t with
      | none => simp [findNl, hb, hft] at h
      | some j =>
        simp [findNl, hb, hft] at h
        have := ih hft
        simp only [List.length_cons]
        omega

theorem findNl_append_no_nl {l1 : List Nat} (h : ∀ x ∈ l1, x ≠ 10) (l2 : List Nat) :
    findNl (l1 ++ l2) = (findNl l2).map (fun i => l1.length + i) := by
  induction l1 with
  | nil => simp
  | cons b t ih =>
    have hb : b ≠ 10 := h b (List.mem_cons_self b t)
    have ih2 := ih (fun x hx => h x (List.mem_cons_of_mem b hx))
    cases hfl : findNl l2 with
    | none =>
      rw [hfl] at ih2
      simp only [Option.map] at ih2
      simp [findNl, hb, List.append_eq, ih2]
    | some j =>
      rw [hfl] at ih2
      simp only [Option.map] at ih2
      simp only [List.cons_append, findNl, if_neg hb, List.append_eq, ih2, Option.map,
        List.length_cons, hfl, Option.some.injEq]
      omega

theorem findNl_take : ∀ {l : List Nat} {i k : Nat}, findNl l = some i → i < k →
    findNl (l.take k) = some i := by
  intro l
  induction l with
  | nil => intro i k h; simp [findNl] at h
  | cons b t ih =>
    intro i k h hik
    rcases k with _ | k
    · omega
    · by_cases hb : b = 10
      · simp [findNl, hb] at h
        simp [findNl, hb]
        omega
      · cases hft : findNl t with
        | none => simp [findNl, hb, hft] at h
        | some j =>
          simp [findNl, hb, hft] at h
          have hjk : j < k := by omega
          simp [findNl, hb, ih hft hjk]
          omega

/-! ## Lemmas about one parser iteration (`parseStep`) -/

theorem int32wrap_small {n : Nat} (h : n < 2147483648) : int32wrap n = (n : Int) := by
  unfold int32wrap
  rw [Nat.mod_eq_of_lt (by omega)]
  rw [if_pos h]

theorem header_headD (n : Nat) (l : List Nat) :
    isDigitB ((natDigits n ++ l).headD 0) = true := by
  rcases hD : natDigits n with _ | ⟨d, t⟩
  · exact absurd hD (natDigits_ne_nil n)
  · have hd : d ∈ natDigits n := by rw [hD]; exact List.mem_cons_self d t
    have := natDigits_digits n d hd
    simp [isDigitB]
    omega

theorem header_head13 (n : Nat) (l : List Nat) :
    (natDigits n ++ l).head? = some 13 → False := by
  intro h
  rcases hD : natDigits n with _ | ⟨d, t⟩
  · exact absurd hD (natDigits_ne_nil n)
  · have hd : d ∈ natDigits n := by rw [hD]; exact List.mem_cons_self d t
    have := natDigits_digits n d hd
    rw [hD] at h
    simp only [List.cons_append, List.head?_cons, Option.some.injEq] at h
    omega

theorem parseStep_term (fcr : Bool) (r : List Nat) :
    parseStep (termB fcr ++ r) = .done (termB fcr).length := by
  cases fcr
  · simp [termB, parseStep, findNl]
  · simp [termB, parseStep, findNl]

theorem parseStep_encBlob {b : List Nat} (hb : b.length < 2147483648)
    (hcr tcr : Bool) (r : List Nat) :
    parseStep (encBlob hcr tcr b ++ r) = .blob b (encBlob hcr tcr b).length := by
  have hL1 : 1 ≤ (natDigits b.length).length := by
    rcases h : natDigits b.length with _ | ⟨d, t⟩
    · exact absurd h (natDigits_ne_nil _)
    · simp [h]
  have hP : b.length < 10 ^ 10 := by
    calc b.length < 2147483648 := hb
    _ < 10 ^ 10 := by norm_num
  have hL10 : (natDigits b.length).length ≤ 10 :=
    @natDigits_length_le b.length 10 hP (by norm_num)
  cases hcr <;> cases tcr
  case false.false =>
    have hrw : encBlob false false b ++ r
        = natDigits b.length ++ 10 :: (b ++ 10 :: r) := by
      simp [encBlob, termB]
    rw [hrw]
    have hfind : findNl (natDigits b.length ++ 10 :: (b ++ 10 :: r))
        = some (natDigits b.length).length := by
      rw [findNl_append_no_nl natDigits_no_nl]
      simp [findNl]
    simp only [parseStep, hfind]
    rw [if_neg (by
      rintro (h | ⟨h2, h3⟩)
      · omega
      · exact header_head13 b.length _ h3)]
    rw [if_neg (not_not_intro (header_headD b.length _))]
    rw [if_neg (by omega)]
    simp only [Nat.add_sub_cancel]
    rw [List.take_left' rfl]
    rw [atoi_natDigits, int32wrap_small hb]
    rw [if_neg (by omega)]
    rw [Int.toNat_natCast]
    rw [if_neg (by
      simp only [List.length_append, List.length_cons]
      omega)]
    have hdropj : (natDigits b.length ++ 10 :: (b ++ 10 :: r)).drop
        ((natDigits b.length).length + 1 + b.length) = 10 :: r := by
      rw [show natDigits b.length ++ 10 :: (b ++ 10 :: r)
          = (natDigits b.length ++ 10 :: b) ++ 10 :: r by simp]
      exact List.drop_left' (by simp only [List.length_append, List.length_cons]; omega)
    rw [hdropj, List.head?_cons]
    rw [if_pos rfl]
    have hdropd : (natDigits b.length ++ 10 :: (b ++ 10 :: r)).drop
        ((natDigits b.length).length + 1) = b ++ 10 :: r := by
      rw [show natDigits b.length ++ 10 :: (b ++ 10 :: r)
          = (natDigits b.length ++ [10]) ++ (b ++ 10 :: r) by simp]
      exact List.drop_left' (by simp only [List.length_append, List.length_cons, List.length_nil]; try omega)
    rw [hdropd, List.take_left]
    simp [encBlob, termB]
    try omega
  case false.true =>
    have hrw : encBlob false true b ++ r
        = natDigits b.length ++ 10 :: (b ++ 13 :: 10 :: r) := by
      simp [encBlob, termB]
    rw [hrw]
    have hfind : findNl (natDigits b.length ++ 10 :: (b ++ 13 :: 10 :: r))
        = some (natDigits b.length).length := by
      rw [findNl_append_no_nl natDigits_no_nl]
      simp [findNl]
    simp only [parseStep, hfind]
    rw [if_neg (by
      rintro (h | ⟨h2, h3⟩)
      · omega
      · exact header_head13 b.length _ h3)]
    rw [if_neg (not_not_intro (header_headD b.length _))]
    rw [if_neg (by omega)]
    simp only [Nat.add_sub_cancel]
    rw [List.take_left' rfl]
    rw [atoi_natDigits, int32wrap_small hb]
    rw [if_neg (by omega)]
    rw [Int.toNat_natCast]
    rw [if_neg (by
      simp only [List.length_append, List.length_cons]
      omega)]
    have hdropj : (natDigits b.length ++ 10 :: (b ++ 13 :: 10 :: r)).drop
        ((natDigits b.length).length + 1 + b.length) = 13 :: 10 :: r := by
      rw [show natDigits b.length ++ 10 :: (b ++ 13 :: 10 :: r)
          = (natDigits b.length ++ 10 :: b) ++ 13 :: 10 :: r by simp]
      exact List.drop_left' (by simp only [List.length_append, List.length_cons]; omega)
    rw [hdropj, List.head?_cons]
    rw [if_neg (by simp)]
    rw [show ((13 : Nat) :: 10 :: r).drop 1 = 10 :: r from rfl, List.head?_cons]
    rw [if_pos ⟨rfl, rfl⟩]
    have hdropd : (natDigits b.length ++ 10 :: (b ++ 13 :: 10 :: r)).drop
        ((natDigits b.length).length + 1) = b ++ 13 :: 10 :: r := by
      rw [show natDigits b.length ++ 10 :: (b ++ 13 :: 10 :: r)
          = (natDigits b.length ++ [10]) ++ (b ++ 13 :: 10 :: r) by simp]
      exact List.drop_left' (by simp only [List.length_append, List.length_cons, List.length_nil]; try omega)
    rw [hdropd, List.take_left]
    simp [encBlob, termB]
    try omega
  case true.false =>
    have hrw : encBlob true false b ++ r
        = natDigits b.length ++ 13 :: 10 :: (b ++ 10 :: r) := by
      simp [encBlob, termB]
    rw [hrw]
    have hfind : findNl (natDigits b.length ++ 13 :: 10 :: (b ++ 10 :: r))
        = some ((natDigits b.length).length + 1) := by
      rw [findNl_append_no_nl natDigits_no_nl]
      simp [findNl]
    simp only [parseStep, hfind]
    rw [if_neg (by
      rintro (h | ⟨h2, h3⟩)
      · omega
      · omega)]
    rw [if_neg (not_not_intro (header_headD b.length _))]
    rw [if_neg (by omega)]
    simp only [Nat.add_sub_cancel]
    have htake : (natDigits b.length ++ 13 :: 10 :: (b ++ 10 :: r)).take
        ((natDigits b.length).length + 1) = natDigits b.length ++ 13 :: [] := by
      rw [show natDigits b.length ++ 13 :: 10 :: (b ++ 10 :: r)
          = (natDigits b.length ++ 13 :: []) ++ 10 :: (b ++ 10 :: r) by simp]
      exact List.take_left' (by simp only [List.length_append, List.length_cons, List.length_nil]; try omega)
    rw [htake]
    rw [atoi_natDigits_stop (by simp [isDigitB]) []]
    rw [int32wrap_small hb]
    rw [if_neg (by omega)]
    rw [Int.toNat_natCast]
    rw [if_neg (by
      simp only [List.length_append, List.length_cons]
      omega)]
    have hdropj : (natDigits b.length ++ 13 :: 10 :: (b ++ 10 :: r)).drop
        ((natDigits b.length).length + 1 + 1 + b.length) = 10 :: r := by
      rw [show natDigits b.length ++ 13 :: 10 :: (b ++ 10 :: r)
          = (natDigits b.length ++ 13 :: 10 :: b) ++ 10 :: r by simp]
      exact List.drop_left' (by simp only [List.length_append, List.length_cons]; omega)
    rw [hdropj, List.head?_cons]
    rw [if_pos rfl]
    have hdropd : (natDigits b.length ++ 13 :: 10 :: (b ++ 10 :: r)).drop
        ((natDigits b.length).length + 1 + 1) = b ++ 10 :: r := by
      rw [show natDigits b.length ++ 13 :: 10 :: (b ++ 10 :: r)
          = (natDigits b.length ++ 13 :: 10 :: []) ++ (b ++ 10 :: r) by simp]
      exact List.drop_left' (by simp only [List.length_append, List.length_cons, List.length_nil]; try omega)
    rw [hdropd, List.take_left]
    simp [encBlob, termB]
    try omega
  case true.true =>
    have hrw : encBlob true true b ++ r
        = natDigits b.length ++ 13 :: 10 :: (b ++ 13 :: 10 :: r) := by
      simp [encBlob, termB]
    rw [hrw]
    have hfind : findNl (natDigits b.length ++ 13 :: 10 :: (b ++ 13 :: 10 :: r))
        = some ((natDigits b.length).length + 1) := by
      rw [findNl_append_no_nl natDigits_no_nl]
      simp [findNl]
    simp only [parseStep, hfind]
    rw [if_neg (by
      rintro (h | ⟨h2, h3⟩)
      · omega
      · omega)]
    rw [if_neg (not_not_intro (header_headD b.length _))]
    rw [if_neg (by omega)]
    simp only [Nat.add_sub_cancel]
    have htake : (natDigits b.length ++ 13 :: 10 :: (b ++ 13 :: 10 :: r)).take
        ((natDigits b.length).length + 1) = natDigits b.length ++ 13 :: [] := by
      rw [show natDigits b.length ++ 13 :: 10 :: (b ++ 13 :: 10 :: r)
          = (natDigits b.length ++ 13 :: []) ++ 10 :: (b ++ 13 :: 10 :: r) by simp]
      exact List.take_left' (by simp only [List.length_append, List.length_cons, List.length_nil]; try omega)
    rw [htake]
    rw [atoi_natDigits_stop (by simp [isDigitB]) []]
    rw [int32wrap_small hb]
    rw [if_neg (by omega)]
    rw [Int.toNat_natCast]
    rw [if_neg (by
      simp only [List.length_append, List.length_cons]
      omega)]
    have hdropj : (natDigits b.length ++ 13 :: 10 :: (b ++ 13 :: 10 :: r)).drop
        ((natDigits b.length).length + 1 + 1 + b.length) = 13 :: 10 :: r := by
      rw [show natDigits b.length ++ 13 :: 10 :: (b ++ 13 :: 10 :: r)
          = (natDigits b.length ++ 13 :: 10 :: b) ++ 13 :: 10 :: r by simp]
      exact List.drop_left' (by simp only [List.length_append, List.length_cons]; omega)
    rw [hdropj, List.head?_cons]
    rw [if_neg (by simp)]
    rw [show ((13 : Nat) :: 10 :: r).drop 1 = 10 :: r from rfl, List.head?_cons]
    rw [if_pos ⟨rfl, rfl⟩]
    have hdropd : (natDigits b.length ++ 13 :: 10 :: (b ++ 13 :: 10 :: r)).drop
        ((natDigits b.length).length + 1 + 1) = b ++ 13 :: 10 :: r := by
      rw [show natDigits b.length ++ 13 :: 10 :: (b ++ 13 :: 10 :: r)
          = (natDigits b.length ++ 13 :: 10 :: []) ++ (b ++ 13 :: 10 :: r) by simp]
      exact List.drop_left' (by simp only [List.length_append, List.length_cons, List.length_nil]; try omega)
    rw [hdropd, List.take_left]
    simp [encBlob, termB]
    try omega

theorem parseStep_done_bounds {rest : List Nat} {c : Nat}
    (h : parseStep rest = .done c) : 1 ≤ c ∧ c ≤ rest.length := by
  cases hf : findNl rest with
  | none => rw [parseStep, hf] at h; simp at h
  | some nl =>
    have hlt := findNl_eq_some_lt hf
    rw [parseStep, hf] at h
    simp only at h
    split at h
    · cases h; omega
    · split at h
      · simp at h
      · split at h
        · simp at h
        · split at h
          · simp at h
          · split at h
            · simp at h
            · split at h
              · simp at h
              · split at h
                · simp at h
                · simp at h

theorem parseStep_blob_bounds {rest : List Nat} {v : List Nat} {c : Nat}
    (h : parseStep rest = .blob v c) : 1 ≤ c ∧ c ≤ rest.length := by
  cases hf : findNl rest with
  | none => rw [parseStep, hf] at h; simp at h
  | some nl =>
    have hlt := findNl_eq_some_lt hf
    rw [parseStep, hf] at h
    simp only at h
    split at h
    · simp at h
    · split at h
      · simp at h
      · split at h
        · simp at h
        · split at h
          · simp at h
          · split at h
            case isTrue => simp at h
            case isFalse hlen =>
              split at h
              case isTrue hafter =>
                cases h
                have hne : rest.drop (nl + 1 + _) ≠ [] :=
                  fun hnil => by rw [hnil] at hafter; simp at hafter
                have := List.length_drop (nl + 1 + (int32wrap (atoi (rest.take (nl + 1 - 1)))).toNat) rest
                have h2 : rest.drop (nl + 1 + (int32wrap (atoi (rest.take (nl + 1 - 1)))).toNat) ≠ [] :=
                  fun hnil => by rw [hnil] at hafter; simp at hafter
                have h3 := List.length_pos.mpr h2
                omega
              case isFalse =>
                split at h
                case isTrue hafter2 =>
                  cases h
                  have h2 : (rest.drop (nl + 1 + (int32wrap (atoi (rest.take (nl + 1 - 1)))).toNat)).drop 1 ≠ [] :=
                    fun hnil => by rw [hnil] at hafter2; simp at hafter2
                  have h3 := List.length_pos.mpr h2
                  have h4 := List.length_drop 1 (rest.drop (nl + 1 + (int32wrap (atoi (rest.take (nl + 1 - 1)))).toNat))
                  have h5 := List.length_drop (nl + 1 + (int32wrap (atoi (rest.take (nl + 1 - 1)))).toNat) rest
                  omega
                case isFalse => simp at h

theorem parseStep_take_done {rest : List Nat} {c k : Nat}
    (h : parseStep rest = .done c) (hk : c ≤ k) :
    parseStep (rest.take k) = .done c := by
  cases hf : findNl rest with
  | none => rw [parseStep, hf] at h; simp at h
  | some nl =>
    rw [parseStep, hf] at h
    simp only at h
    split at h
    case isTrue hcond =>
      cases h
      have hfind2 : findNl (rest.take k) = some nl := findNl_take hf (by omega)
      simp only [parseStep, hfind2]
      rw [if_pos ?cond]
      case cond =>
        rcases hcond with h1 | ⟨h1, h2⟩
        · exact Or.inl h1
        · refine Or.inr ⟨h1, ?_⟩
          rw [List.head?_take, if_neg (by omega)]
          exact h2
    case isFalse =>
      split at h
      · simp at h
      · split at h
        · simp at h
        · split at h
          · simp at h
          · split at h
            · simp at h
            · split at h
              · simp at h
              · split at h
                · simp at h
                · simp at h

theorem parseStep_take_blob {rest v : List Nat} {c k : Nat}
    (h : parseStep rest = .blob v c) (hk : c ≤ k) :
    parseStep (rest.take k) = .blob v c := by
  cases hf : findNl rest with
  | none => rw [parseStep, hf] at h; simp at h
  | some nl =>
    have hnl := findNl_eq_some_lt hf
    rw [parseStep, hf] at h
    simp only at h
    split at h
    case isTrue => simp at h
    case isFalse hcond1 =>
      split at h
      case isTrue => simp at h
      case isFalse hdig =>
        split at h
        case isTrue => simp at h
        case isFalse hdis19 =>
          split at h
          case isTrue => simp at h
          case isFalse hsz =>
            split at h
            case isTrue => simp at h
            case isFalse hlen =>
              split at h
              case isTrue hafter =>
                cases h
                have hjlen : (rest.drop (nl + 1 + (int32wrap (atoi (rest.take (nl + 1 - 1)))).toNat)) ≠ [] :=
                  fun hnil => by rw [hnil] at hafter; simp at hafter
                have hjlen2 := List.length_pos.mpr hjlen
                rw [List.length_drop] at hjlen2
                have hfind2 : findNl (rest.take k) = some nl := findNl_take hf (by omega)
                simp only [parseStep, hfind2]
                rw [if_neg ?cond1take]
                case cond1take =>
                  rintro (h1 | ⟨h1, h2⟩)
                  · exact hcond1 (Or.inl h1)
                  · rw [List.head?_take, if_neg (by omega)] at h2
                    exact hcond1 (Or.inr ⟨h1, h2⟩)
                rw [show (rest.take k).headD 0 = rest.headD 0 by
                  rw [List.headD_eq_head?_getD, List.head?_take, if_neg (show ¬(k = 0) by omega),
                    List.headD_eq_head?_getD]]
                rw [if_neg hdig]
                rw [if_neg hdis19]
                rw [List.take_take, min_eq_left (by omega)]
                rw [if_neg hsz]
                rw [if_neg (show ¬((rest.take k).length < nl + 1 + (int32wrap (atoi (rest.take (nl + 1 - 1)))).toNat) by
                  rw [List.length_take]; omega)]
                rw [List.drop_take]
                rw [List.head?_take]
                rw [if_neg (show ¬(k - (nl + 1 + (int32wrap (atoi (rest.take (nl + 1 - 1)))).toNat) = 0) by omega)]
                rw [if_pos hafter]
                rw [List.drop_take]
                rw [List.take_take, min_eq_left (by omega)]
              case isFalse hafter1 =>
                split at h
                case isTrue hafter2 =>
                  cases h
                  obtain ⟨hh13, hh10⟩ := hafter2
                  have hjlen : ((rest.drop (nl + 1 + (int32wrap (atoi (rest.take (nl + 1 - 1)))).toNat)).drop 1) ≠ [] :=
                    fun hnil => by rw [hnil] at hh10; simp at hh10
                  have hjlen2 := List.length_pos.mpr hjlen
                  rw [List.length_drop, List.length_drop] at hjlen2
                  have hfind2 : findNl (rest.take k) = some nl := findNl_take hf (by omega)
                  simp only [parseStep, hfind2]
                  rw [if_neg ?cond1take2]
                  case cond1take2 =>
                    rintro (h1 | ⟨h1, h2⟩)
                    · exact hcond1 (Or.inl h1)
                    · rw [List.head?_take, if_neg (by omega)] at h2
                      exact hcond1 (Or.inr ⟨h1, h2⟩)
                  rw [show (rest.take k).headD 0 = rest.headD 0 by
                    rw [List.headD_eq_head?_getD, List.head?_take, if_neg (show ¬(k = 0) by omega),
                      List.headD_eq_head?_getD]]
                  rw [if_neg hdig]
                  rw [if_neg hdis19]
                  rw [List.take_take, min_eq_left (by omega)]
                  rw [if_neg hsz]
                  rw [if_neg (show ¬((rest.take k).length < nl + 1 + (int32wrap (atoi (rest.take (nl + 1 - 1)))).toNat) by
                    rw [List.length_take]; omega)]
                  rw [List.drop_take]
                  rw [List.head?_take]
                  rw [if_neg (show ¬(k - (nl + 1 + (int32wrap (atoi (rest.take (nl + 1 - 1)))).toNat) = 0) by omega)]
                  rw [if_neg hafter1]
                  rw [List.drop_take]
                  rw [List.head?_take]
                  rw [if_neg (show ¬(k - (nl + 1 + (int32wrap (atoi (rest.take (nl + 1 - 1)))).toNat) - 1 = 0) by omega)]
                  rw [if_pos ⟨hh13, hh10⟩]
                  rw [List.drop_take]
                  rw [List.take_take, min_eq_left (by omega)]
                case isFalse => simp at h

theorem findNl_up : ∀ {l : List Nat} {i k : Nat}, findNl (l.take k) = some i →
    findNl l = some i := by
  intro l
  induction l with
  | nil => intro i k h; simp [findNl] at h
  | cons b t ih =>
    intro i k h
    rcases k with _ | k
    · simp [findNl] at h
    · by_cases hb : b = 10
      · simp [findNl, hb] at h ⊢
        omega
      · simp only [List.take_succ_cons, findNl, if_neg hb] at h ⊢
        cases hft : findNl (t.take k) with
        | none => rw [hft] at h; simp at h
        | some j =>
          rw [hft] at h
          simp only [Option.map] at h
          rw [ih hft]
          exact h

theorem parseStep_up_done {l : List Nat} {k c : Nat}
    (h : parseStep (l.take k) = .done c) : parseStep l = .done c := by
  cases hf : findNl (l.take k) with
  | none => rw [parseStep, hf] at h; simp at h
  | some nl =>
    have hnl := findNl_eq_some_lt hf
    have hkk : (l.take k).length ≤ k := by rw [List.length_take]; omega
    have hfl : findNl l = some nl := findNl_up hf
    rw [parseStep, hf] at h
    simp only at h
    split at h
    case isTrue hcond =>
      cases h
      simp only [parseStep, hfl]
      rw [if_pos ?condup]
      case condup =>
        rcases hcond with h1 | ⟨h1, h2⟩
        · exact Or.inl h1
        · rw [List.head?_take, if_neg (show ¬(k = 0) by omega)] at h2
          exact Or.inr ⟨h1, h2⟩
    case isFalse =>
      split at h
      · simp at h
      · split at h
        · simp at h
        · split at h
          · simp at h
          · split at h
            · simp at h
            · split at h
              · simp at h
              · split at h
                · simp at h
                · simp at h

theorem parseStep_up_bad {l : List Nat} {k : Nat}
    (h : parseStep (l.take k) = .bad) : parseStep l = .bad := by
  cases hf : findNl (l.take k) with
  | none => rw [parseStep, hf] at h; simp at h
  | some nl =>
    have hnl := findNl_eq_some_lt hf
    have hkk : (l.take k).length ≤ k := by rw [List.length_take]; omega
    have hk0 : ¬(k = 0) := by omega
    have hfl : findNl l = some nl := findNl_up hf
    have hatoi : (l.take k).take (nl + 1 - 1) = l.take (nl + 1 - 1) := by
      rw [List.take_take, min_eq_left (by omega)]
    have hhead : (l.take k).head? = l.head? := by
      rw [List.head?_take, if_neg hk0]
    have hheadD : (l.take k).headD 0 = l.headD 0 := by
      rw [List.headD_eq_head?_getD, hhead, List.headD_eq_head?_getD]
    rw [parseStep, hf] at h
    simp only at h
    split at h
    case isTrue => simp at h
    case isFalse hcond1 =>
      rw [hhead] at hcond1
      split at h
      case isTrue hdig =>
        rw [hheadD] at hdig
        simp only [parseStep, hfl]
        rw [if_neg hcond1, if_pos hdig]
      case isFalse hdig =>
        rw [hheadD] at hdig
        split at h
        case isTrue hdis =>
          simp only [parseStep, hfl]
          rw [if_neg hcond1, if_neg hdig, if_pos hdis]
        case isFalse hdis =>
          split at h
          case isTrue hsz =>
            rw [hatoi] at hsz
            simp only [parseStep, hfl]
            rw [if_neg hcond1, if_neg hdig, if_neg hdis, if_pos hsz]
          case isFalse hsz =>
            split at h
            case isTrue => simp at h
            case isFalse =>
              split at h
              case isTrue => simp at h
              case isFalse =>
                split at h
                case isTrue => simp at h
                case isFalse => simp at h

theorem parseStep_up_blob {l v : List Nat} {k c : Nat}
    (h : parseStep (l.take k) = .blob v c) : parseStep l = .blob v c := by
  cases hf : findNl (l.take k) with
  | none => rw [parseStep, hf] at h; simp at h
  | some nl =>
    have hnl := findNl_eq_some_lt hf
    have hkk : (l.take k).length ≤ k := by rw [List.length_take]; omega
    have hlk : (l.take k).length ≤ l.length := by rw [List.length_take]; omega
    have hk0 : ¬(k = 0) := by omega
    have hfl : findNl l = some nl := findNl_up hf
    have hatoi : (l.take k).take (nl + 1 - 1) = l.take (nl + 1 - 1) := by
      rw [List.take_take, min_eq_left (by omega)]
    have hhead : (l.take k).head? = l.head? := by
      rw [List.head?_take, if_neg hk0]
    have hheadD : (l.take k).headD 0 = l.headD 0 := by
      rw [List.headD_eq_head?_getD, hhead, List.headD_eq_head?_getD]
    have hbnd := parseStep_blob_bounds h
    rw [parseStep, hf] at h
    simp only at h
    split at h
    case isTrue => simp at h
    case isFalse hcond1 =>
      rw [hhead] at hcond1
      split at h
      case isTrue => simp at h
      case isFalse hdig =>
        rw [hheadD] at hdig
        split at h
        case isTrue => simp at h
        case isFalse hdis =>
          split at h
          case isTrue => simp at h
          case isFalse hsz =>
            rw [hatoi] at hsz
            split at h
            case isTrue => simp at h
            case isFalse hlen =>
              rw [hatoi] at hlen
              rw [List.length_take] at hlen
              split at h
              case isTrue hafter =>
                cases h
                rw [hatoi] at hafter ⊢
                rw [List.drop_take, List.head?_take] at hafter
                rw [if_neg (show ¬(k - (nl + 1 + (int32wrap (atoi (l.take (nl + 1 - 1)))).toNat) = 0) by
                  intro h0
                  rw [h0] at hafter
                  simp at hafter)] at hafter
                have hvv : ((l.take k).drop (nl + 1)).take (int32wrap (atoi (l.take (nl + 1 - 1)))).toNat
                    = (l.drop (nl + 1)).take (int32wrap (atoi (l.take (nl + 1 - 1)))).toNat := by
                  rw [List.drop_take, List.take_take, min_eq_left (by rw [hatoi] at hbnd; omega)]
                rw [hvv]
                simp only [parseStep, hfl]
                rw [if_neg hcond1, if_neg hdig, if_neg hdis, if_neg hsz]
                rw [if_neg (show ¬(l.length < nl + 1 + (int32wrap (atoi (l.take (nl + 1 - 1)))).toNat) by omega)]
                rw [if_pos hafter]
              case isFalse hafter1 =>
                split at h
                case isTrue hafter2 =>
                  cases h
                  obtain ⟨hh13, hh10⟩ := hafter2
                  rw [hatoi] at hh13 hh10 hafter1 ⊢
                  rw [List.drop_take, List.head?_take] at hh13 hafter1
                  have hkj : ¬(k - (nl + 1 + (int32wrap (atoi (l.take (nl + 1 - 1)))).toNat) = 0) := by
                    intro h0
                    rw [h0] at hh13
                    simp at hh13
                  rw [if_neg hkj] at hh13 hafter1
                  rw [List.drop_take, List.drop_take, List.head?_take] at hh10
                  rw [if_neg (show ¬(k - (nl + 1 + (int32wrap (atoi (l.take (nl + 1 - 1)))).toNat) - 1 = 0) by
                    intro h0
                    rw [h0] at hh10
                    simp at hh10)] at hh10
                  have hvv : ((l.take k).drop (nl + 1)).take (int32wrap (atoi (l.take (nl + 1 - 1)))).toNat
                      = (l.drop (nl + 1)).take (int32wrap (atoi (l.take (nl + 1 - 1)))).toNat := by
                    rw [List.drop_take, List.take_take, min_eq_left (by rw [hatoi] at hbnd; omega)]
                  rw [hvv]
                  simp only [parseStep, hfl]
                  rw [if_neg hcond1, if_neg hdig, if_neg hdis, if_neg hsz]
                  rw [if_neg (show ¬(l.length < nl + 1 + (int32wrap (atoi (l.take (nl + 1 - 1)))).toNat) by omega)]
                  rw [if_neg hafter1]
                  rw [if_pos ⟨hh13, hh10⟩]
                case isFalse => simp at h

/-! ## Lemmas about the whole parse loop -/

theorem parseLoopF_nil : ∀ fuel, parseLoopF fuel [] = .unfinished := by
  intro fuel
  rcases fuel with _ | g
  · rfl
  · simp [parseLoopF, parseStep, findNl]

theorem parseLoopF_fuel : ∀ (n : Nat) (rest : List Nat) (f1 f2 : Nat),
    rest.length ≤ n → rest.length < f1 → rest.length < f2 →
    parseLoopF f1 rest = parseLoopF f2 rest := by
  intro n
  induction n with
  | zero =>
    intro rest f1 f2 hn h1 h2
    have hrest : rest = [] := List.length_eq_zero.mp (by omega)
    subst hrest
    rw [parseLoopF_nil, parseLoopF_nil]
  | succ n ih =>
    intro rest f1 f2 hn h1 h2
    rcases f1 with _ | g1
    · omega
    rcases f2 with _ | g2
    · omega
    simp only [parseLoopF]
    split
    · rfl
    · rfl
    · rfl
    · next v c hs =>
      have hb := parseStep_blob_bounds hs
      rw [ih (rest.drop c) g1 g2 (by rw [List.length_drop]; omega)
        (by rw [List.length_drop]; omega) (by rw [List.length_drop]; omega)]

theorem parseLoopF_encFrame {blobs : List BlobSpec} {fcr : Bool}
    (hv : ∀ s ∈ blobs, s.payload.length < 2147483648) :
    ∀ (r : List Nat) (fuel : Nat), blobs.length < fuel →
    parseLoopF fuel (encFrame blobs fcr ++ r)
      = .ok (blobs.map (fun s => s.payload)) (encFrame blobs fcr).length := by
  induction blobs with
  | nil =>
    intro r fuel hf
    rcases fuel with _ | g
    · omega
    simp only [encFrame, parseLoopF, parseStep_term, List.map_nil]
  | cons s rest ih =>
    intro r fuel hf
    rcases fuel with _ | g
    · omega
    have hs : s.payload.length < 2147483648 := hv s (List.mem_cons_self s rest)
    have hdrop : (encBlob s.hcr s.tcr s.payload ++ (encFrame rest fcr ++ r)).drop
        (encBlob s.hcr s.tcr s.payload).length = encFrame rest fcr ++ r :=
      List.drop_left _ _
    simp only [encFrame, List.append_assoc, parseLoopF, parseStep_encBlob hs, hdrop,
      ih (fun t ht => hv t (List.mem_cons_of_mem s ht)) r g (by simp at hf ⊢; omega)]
    simp [List.length_append]

theorem parseLoopF_up_ok : ∀ (fuel : Nat) (l : List Nat) (k : Nat) (vs : List (List Nat)) (c : Nat),
    parseLoopF fuel (l.take k) = .ok vs c → parseLoopF fuel l = .ok vs c := by
  intro fuel
  induction fuel with
  | zero => intro l k vs c h; simp [parseLoopF] at h
  | succ g ih =>
    intro l k vs c h
    rw [parseLoopF] at h
    split at h
    case h_1 c0 hs =>
      cases h
      rw [parseLoopF, parseStep_up_done hs]
    case h_2 hs => simp at h
    case h_3 hs => simp at h
    case h_4 v0 c0 hs =>
      rw [List.drop_take] at h
      cases hrec : parseLoopF g (List.take (k - c0) (List.drop c0 l)) with
      | ok vs2 c2 =>
        simp only [hrec] at h
        simp only [parseLoopF, parseStep_up_blob hs, ih _ _ _ _ hrec]
        exact h
      | badfmt => simp [hrec] at h
      | unfinished => simp [hrec] at h

theorem parseLoopF_up_badfmt : ∀ (fuel : Nat) (l : List Nat) (k : Nat),
    parseLoopF fuel (l.take k) = .badfmt → parseLoopF fuel l = .badfmt := by
  intro fuel
  induction fuel with
  | zero => intro l k h; simp [parseLoopF] at h
  | succ g ih =>
    intro l k h
    rw [parseLoopF] at h
    split at h
    case h_1 c0 hs => simp at h
    case h_2 hs => rw [parseLoopF, parseStep_up_bad hs]
    case h_3 hs => simp at h
    case h_4 v0 c0 hs =>
      rw [List.drop_take] at h
      cases hrec : parseLoopF g (List.take (k - c0) (List.drop c0 l)) with
      | ok vs2 c2 => simp [hrec] at h
      | badfmt => simp only [parseLoopF, parseStep_up_blob hs, ih _ _ hrec]
      | unfinished => simp [hrec] at h

theorem parseLoopF_mono : ∀ (f1 : Nat) (f2 : Nat) (l : List Nat), f1 ≤ f2 →
    parseLoopF f1 l ≠ .unfinished → parseLoopF f2 l = parseLoopF f1 l := by
  intro f1
  induction f1 with
  | zero =>
    intro f2 l _ hne
    exact absurd rfl hne
  | succ g ih =>
    intro f2 l hf hne
    rcases f2 with _ | g2
    · omega
    simp only [parseLoopF]
    split
    · rfl
    · rfl
    · rfl
    · next v c hs =>
      have hinner : parseLoopF g (l.drop c) ≠ .unfinished := by
        intro hu
        exact hne (by simp only [parseLoopF, hs, hu])
      rw [ih g2 (l.drop c) (by omega) hinner]

theorem parseLoopF_take_ok : ∀ (fuel : Nat) (buf : List Nat) (vs : List (List Nat)) (n k : Nat),
    parseLoopF fuel buf = .ok vs n → n ≤ k →
    n ≤ buf.length ∧ parseLoopF fuel (buf.take k) = .ok vs n := by
  intro fuel
  induction fuel with
  | zero => intro buf vs n k h hk; simp [parseLoopF] at h
  | succ g ih =>
    intro buf vs n k h hk
    rw [parseLoopF] at h
    split at h
    case h_1 c0 hs =>
      cases h
      have hb := parseStep_done_bounds hs
      exact ⟨hb.2, by simp only [parseLoopF, parseStep_take_done hs hk]⟩
    case h_2 hs => simp at h
    case h_3 hs => simp at h
    case h_4 v0 c0 hs =>
      have hb := parseStep_blob_bounds hs
      cases hrec : parseLoopF g (buf.drop c0) with
      | ok vs2 c2 =>
        simp only [hrec] at h
        cases h
        have hlen : (buf.drop c0).length = buf.length - c0 := List.length_drop _ _
        have ihh := ih (buf.drop c0) vs2 c2 (k - c0) hrec (by omega)
        refine ⟨by omega, ?_⟩
        have hstep := parseStep_take_blob hs (show c0 ≤ k by omega)
        have hdrop : (buf.take k).drop c0 = (buf.drop c0).take (k - c0) :=
          List.drop_take k c0 buf
        simp only [parseLoopF, hstep, hdrop, ihh.2]
      | badfmt => simp [hrec] at h
      | unfinished => simp [hrec] at h

theorem parseLoopF_ok_le {fuel : Nat} {buf : List Nat} {vs : List (List Nat)} {n : Nat}
    (h : parseLoopF fuel buf = .ok vs n) : n ≤ buf.length :=
  (parseLoopF_take_ok fuel buf vs n n h (Nat.le_refl n)).1

/-! ## Frame-level corollaries -/

theorem encBlob_length_pos (hcr tcr : Bool) (b : List Nat) :
    1 ≤ (encBlob hcr tcr b).length := by
  rcases h : natDigits b.length with _ | ⟨d, t⟩
  · exact absurd h (natDigits_ne_nil b.length)
  · simp only [encBlob, h, List.cons_append, List.length_cons, List.length_append]
    omega

theorem encFrame_length_pos (blobs : List BlobSpec) (fcr : Bool) :
    1 ≤ (encFrame blobs fcr).length := by
  cases blobs with
  | nil => cases fcr <;> simp [encFrame, termB]
  | cons s rest =>
    have := encBlob_length_pos s.hcr s.tcr s.payload
    simp only [encFrame, List.length_append]
    omega

theorem encFrame_length_blobs (blobs : List BlobSpec) (fcr : Bool) :
    blobs.length ≤ (encFrame blobs fcr).length := by
  induction blobs with
  | nil => simp
  | cons s rest ih =>
    have := encBlob_length_pos s.hcr s.tcr s.payload
    simp only [encFrame, List.length_append, List.length_cons]
    omega

theorem parse_encFrame {blobs : List BlobSpec} {fcr : Bool}
    (hv : ∀ s ∈ blobs, s.payload.length < 2147483648) (r : List Nat) :
    parse (encFrame blobs fcr ++ r)
      = .ok (blobs.map (fun s => s.payload)) (encFrame blobs fcr).length := by
  unfold parse
  apply parseLoopF_encFrame hv
  have h1 := encFrame_length_blobs blobs fcr
  rw [List.length_append]
  omega

theorem readerGet_encFrame {blobs : List BlobSpec} {fcr : Bool}
    (hv : ∀ s ∈ blobs, s.payload.length < 2147483648) (r : List Nat) :
    readerGet (encFrame blobs fcr ++ r)
      = .frame (blobs.map (fun s => s.payload)) r := by
  unfold readerGet
  simp only [parse_encFrame hv r, List.drop_left]

theorem parse_encFrame_truncated {blobs : List BlobSpec} {fcr : Bool}
    (hv : ∀ s ∈ blobs, s.payload.length < 2147483648) {m : Nat}
    (hm : m < (encFrame blobs fcr).length) :
    parse ((encFrame blobs fcr).take m) = .unfinished := by
  cases hres : parse ((encFrame blobs fcr).take m) with
  | unfinished => rfl
  | ok vs c =>
    exfalso
    unfold parse at hres
    have hup := parseLoopF_up_ok _ _ _ _ _ hres
    have hmono := parseLoopF_mono (((encFrame blobs fcr).take m).length + 1)
      ((encFrame blobs fcr).length + 1) (encFrame blobs fcr)
      (by rw [List.length_take]; omega) (by rw [hup]; simp)
    have hfull2 := @parse_encFrame blobs fcr hv []
    rw [List.append_nil] at hfull2
    unfold parse at hfull2
    rw [hmono, hup] at hfull2
    have hc := parseLoopF_ok_le hres
    rw [List.length_take] at hc
    cases hfull2
    omega
  | badfmt =>
    exfalso
    unfold parse at hres
    have hup := parseLoopF_up_badfmt _ _ _ hres
    have hmono := parseLoopF_mono (((encFrame blobs fcr).take m).length + 1)
      ((encFrame blobs fcr).length + 1) (encFrame blobs fcr)
      (by rw [List.length_take]; omega) (by rw [hup]; simp)
    have hfull2 := @parse_encFrame blobs fcr hv []
    rw [List.append_nil] at hfull2
    unfold parse at hfull2
    rw [hmono, hup] at hfull2
    cases hfull2

theorem readerGet_encFrame_truncated {blobs : List BlobSpec} {fcr : Bool}
    (hv : ∀ s ∈ blobs, s.payload.length < 2147483648) {m : Nat}
    (hm : m < (encFrame blobs fcr).length) :
    readerGet ((encFrame blobs fcr).take m)
      = .nothing ((encFrame blobs fcr).take m) := by
  unfold readerGet
  simp only [parse_encFrame_truncated hv hm]

theorem readerGet_nil : readerGet [] = .nothing [] := by
  unfold readerGet parse
  rw [parseLoopF_nil]

theorem runChunks_nil_chunks : ∀ cs : List (List Nat), cs.flatten = [] →
    runChunks cs [] = some ([], []) := by
  intro cs
  induction cs with
  | nil => intro _; rfl
  | cons c cs ih =>
    intro h
    simp only [List.flatten_cons, List.append_eq_nil] at h
    obtain ⟨rfl, h2⟩ := h
    have hfeed : readerFeed [] ([] : List Nat) = some [] := by
      unfold readerFeed
      simp [BUF_MAX]
    simp only [runChunks, hfeed, readerGet_nil]
    exact ih h2

theorem runChunks_encFrame_aux {blobs : List BlobSpec} {fcr : Bool}
    (hv : ∀ s ∈ blobs, s.payload.length < 2147483648)
    (hmax : (encFrame blobs fcr).length ≤ BUF_MAX) :
    ∀ (cs : List (List Nat)) (m : Nat), m < (encFrame blobs fcr).length →
      cs.flatten = (encFrame blobs fcr).drop m →
      runChunks cs ((encFrame blobs fcr).take m)
        = some ([blobs.map (fun s => s.payload)], []) := by
  intro cs
  induction cs with
  | nil =>
    intro m hm hj
    exfalso
    have hd : (encFrame blobs fcr).drop m = [] := hj.symm
    rw [List.drop_eq_nil_iff] at hd
    omega
  | cons c cs ih =>
    intro m hm hj
    simp only [List.flatten_cons] at hj
    have hclen : m + c.length ≤ (encFrame blobs fcr).length := by
      have hlen := congrArg List.length hj
      simp only [List.length_append, List.length_drop] at hlen
      omega
    have hc : (encFrame blobs fcr).take m ++ c = (encFrame blobs fcr).take (m + c.length) := by
      rw [List.take_add]
      congr 1
      rw [← hj]
      exact (List.take_left c cs.flatten).symm
    have hfeed : readerFeed ((encFrame blobs fcr).take m) c
        = some ((encFrame blobs fcr).take (m + c.length)) := by
      unfold readerFeed
      rw [if_neg (by rw [List.length_take]; omega), hc]
    have hjoin2 : cs.flatten = (encFrame blobs fcr).drop (m + c.length) := by
      have h2 : (encFrame blobs fcr).drop (m + c.length)
          = ((encFrame blobs fcr).drop m).drop c.length := by
        rw [List.drop_drop]
      rw [h2, ← hj, List.drop_left]
    by_cases hcase : m + c.length < (encFrame blobs fcr).length
    · simp only [runChunks, hfeed, readerGet_encFrame_truncated hv hcase]
      exact ih (m + c.length) hcase hjoin2
    · have heq : m + c.length = (encFrame blobs fcr).length := by omega
      have hfull : (encFrame blobs fcr).take (m + c.length) = encFrame blobs fcr :=
        List.take_of_length_le (by omega)
      have hget : readerGet (encFrame blobs fcr)
          = .frame (blobs.map (fun s => s.payload)) [] := by
        have := @readerGet_encFrame blobs fcr hv []
        rwa [List.append_nil] at this
      have hrest : runChunks cs [] = some ([], []) := by
        apply runChunks_nil_chunks
        rw [hjoin2, heq, List.drop_length]
      simp only [runChunks, hfeed, hfull, hget, hrest, Option.map]

/-! ## Claim theorems for the parser -/

/-- C1: Parser chunk-invariance.  For every complete valid frame `B`
(`encFrame blobs fcr`, any CRLF choices, blob sizes below `2^31`, total at
most the 16 MiB buffer limit) and every partition of `B` into chunks,
feeding the chunks in order with a parse attempt after each feed extracts
exactly one frame — the payload list of `B` — leaving an empty buffer, and
the outcome is the same as feeding `B` in a single chunk. -/
theorem C1_parser_chunk_invariance {blobs : List BlobSpec} {fcr : Bool}
    (chunks : List (List Nat))
    (hv : ∀ s ∈ blobs, s.payload.length < 2147483648)
    (hmax : (encFrame blobs fcr).length ≤ BUF_MAX)
    (hsplit : chunks.flatten = encFrame blobs fcr) :
    runChunks chunks [] = some ([blobs.map (fun s => s.payload)], []) ∧
    runChunks chunks [] = runChunks [encFrame blobs fcr] [] := by
  have hpos : 0 < (encFrame blobs fcr).length := encFrame_length_pos blobs fcr
  have h1 : runChunks chunks [] = some ([blobs.map (fun s => s.payload)], []) := by
    have := runChunks_encFrame_aux hv hmax chunks 0 hpos (by simpa using hsplit)
    simpa using this
  have h2 : runChunks [encFrame blobs fcr] [] = some ([blobs.map (fun s => s.payload)], []) := by
    have := runChunks_encFrame_aux hv hmax [encFrame blobs fcr] 0 hpos (by simp)
    simpa using this
  exact ⟨h1, h1.trans h2.symm⟩

/-- Witness for C1: the frame `b"2\nok\n\n"` fed in three chunks. -/
theorem C1_witness :
    runChunks [[50, 10], [111], [107, 10, 10]] [] = some ([[[111, 107]]], []) ∧
    runChunks [[50, 10], [111], [107, 10, 10]] []
      = runChunks [encFrame [⟨[111, 107], false, false⟩] false] [] :=
  @C1_parser_chunk_invariance [⟨[111, 107], false, false⟩] false
    [[50, 10], [111], [107, 10, 10]] (by decide) (by decide) (by decide)

/-- C2: a parse attempt that returns `Complete(frame)` removes exactly the
bytes of that frame from the buffer: the remaining buffer is the untouched
suffix (shifted to offset 0), and the removed prefix re-parses to exactly
that frame with nothing left over.  In particular a buffer that starts with
a grammar-valid frame encoding yields exactly that frame and keeps exactly
the suffix.  A parse attempt that returns `Incomplete` leaves the buffer
unchanged. -/
theorem C2_parse_exact_consumption (buf : List Nat) :
    (∀ vs buf2, readerGet buf = .frame vs buf2 →
      ∃ n, n ≤ buf.length ∧ buf2 = buf.drop n ∧ readerGet (buf.take n) = .frame vs []) ∧
    (∀ buf2, readerGet buf = .nothing buf2 → buf2 = buf) ∧
    (∀ (blobs : List BlobSpec) (fcr : Bool) (rest : List Nat),
      (∀ s ∈ blobs, s.payload.length < 2147483648) →
      buf = encFrame blobs fcr ++ rest →
      readerGet buf = .frame (blobs.map (fun s => s.payload)) rest) := by
  refine ⟨?_, ?_, ?_⟩
  · intro vs buf2 h
    unfold readerGet at h
    cases hp : parse buf with
    | ok vs2 c =>
      simp only [hp] at h
      cases h
      unfold parse at hp
      have hle := parseLoopF_ok_le hp
      have htk := (parseLoopF_take_ok _ _ _ _ c hp (Nat.le_refl c)).2
      have hlen : (buf.take c).length = c := by rw [List.length_take]; omega
      refine ⟨c, hle, rfl, ?_⟩
      unfold readerGet parse
      rw [hlen, parseLoopF_fuel (buf.take c).length (buf.take c) (c + 1) (buf.length + 1)
        (Nat.le_refl _) (by rw [hlen]; omega) (by rw [hlen]; omega)]
      simp only [htk, GetRes.frame.injEq, true_and]
      rw [List.drop_eq_nil_iff, hlen]
    | badfmt => simp [hp] at h
    | unfinished => simp [hp] at h
  · intro buf2 h
    unfold readerGet at h
    cases hp : parse buf with
    | ok vs2 c => simp [hp] at h
    | badfmt => simp [hp] at h
    | unfinished =>
      simp only [hp] at h
      cases h
      rfl
  · intro blobs fcr rest hv hbuf
    subst hbuf
    exact readerGet_encFrame hv rest

/-- Witness for C2: the buffer `b"2\nok\n\nXY"` parses to the frame
`[b"ok"]`, consuming the six frame bytes and keeping `b"XY"`. -/
theorem C2_witness :
    ∃ n, n ≤ ([50, 10, 111, 107, 10, 10, 88, 89] : List Nat).length ∧
      ([88, 89] : List Nat) = ([50, 10, 111, 107, 10, 10, 88, 89] : List Nat).drop n ∧
      readerGet (([50, 10, 111, 107, 10, 10, 88, 89] : List Nat).take n)
        = .frame [[111, 107]] [] :=
  (C2_parse_exact_consumption [50, 10, 111, 107, 10, 10, 88, 89]).1 [[111, 107]] [88, 89]
    (by decide)

/-! ## Claim theorems for the buffer capacity model -/

theorem growCapF_zero : ∀ (fuel size : Nat), 1 ≤ size → growCapF fuel 0 size = Option.none := by
  intro fuel
  induction fuel with
  | zero => intro size _; rfl
  | succ g ih =>
    intro size hs
    unfold growCapF
    rw [if_pos (by omega)]
    simpa using ih size hs

/-- C9 (the code as written): after `clear()` zeroes the capacity, the
doubling loop of `Buffer.grow` (`while cap < size: cap *= 2`) starts from
`cap = 0` and never makes progress, so a subsequent `append`/`put` of any
non-empty byte string diverges instead of reallocating — for every fuel
bound the loop has not exited. -/
theorem C9_clear_put_diverges (b : CBuf) (chunk : List Nat) (fuel : Nat)
    (hne : chunk ≠ []) (hsz : chunk.length ≤ BUF_MAX) :
    (b.clear).put chunk fuel = .diverge := by
  have hpos := List.length_pos.mpr hne
  unfold CBuf.clear CBuf.put
  simp only [List.length_nil, Nat.zero_add]
  rw [if_neg (by omega)]
  rw [if_neg (by omega)]
  rw [growCapF_zero fuel chunk.length (by omega)]

/-- Witness for C9: clearing the freshly constructed buffer and appending
one byte diverges. -/
theorem C9_witness : (CBuf.init.clear).put [120] 5 = PutRes.diverge :=
  C9_clear_put_diverges CBuf.init [120] 5 (by decide) (by decide)

/-! ## Pool accounting (C3) -/

theorem poolRelease_inv {maxC : Nat} {s : PoolState} {c : Nat}
    (hs : PoolInv maxC s) (hc : c ∈ s.inUse) : PoolInv maxC (poolRelease s c) := by
  obtain ⟨h1, h2, h3, h4, h5, h6, h7⟩ := hs
  have hlen : (s.inUse.erase c).length = s.inUse.length - 1 := List.length_erase_of_mem hc
  have hpos : 1 ≤ s.inUse.length := List.length_pos.mpr (List.ne_nil_of_mem hc)
  have hcavail : c ∉ s.available := fun hmem => h5 c hmem hc
  refine ⟨?_, h2, ?_, h4.erase c, ?_, ?_, ?_⟩
  · simp only [poolRelease, List.length_append, List.length_singleton, hlen]
    omega
  · refine List.nodup_append.mpr ⟨h3, List.nodup_singleton c, ?_⟩
    intro x hx hxc
    rw [List.mem_singleton] at hxc
    exact hcavail (hxc ▸ hx)
  · intro x hx hxin
    rcases List.mem_append.mp hx with hx1 | hx1
    · exact h5 x hx1 (List.mem_of_mem_erase hxin)
    · rw [List.mem_singleton] at hx1
      subst hx1
      exact ((h4.mem_erase_iff).mp hxin).1 rfl
  · intro x hx
    rcases List.mem_append.mp hx with hx1 | hx1
    · exact h6 x hx1
    · rw [List.mem_singleton] at hx1
      rw [hx1]
      exact h7 c hc
  · intro x hx
    exact h7 x (List.mem_of_mem_erase hx)

theorem poolStep_inv {maxC : Nat} {s : PoolState} (hs : PoolInv maxC s) (op : PoolOp) :
    PoolInv maxC (poolStep maxC s op) := by
  obtain ⟨h1, h2, h3, h4, h5, h6, h7⟩ := hs
  cases op with
  | disconnectAll => exact ⟨h1, h2, h3, h4, h5, h6, h7⟩
  | release c =>
    simp only [poolStep]
    by_cases hc : c ∈ s.inUse
    · rw [if_pos hc]
      exact poolRelease_inv ⟨h1, h2, h3, h4, h5, h6, h7⟩ hc
    · rw [if_neg hc]
      exact ⟨h1, h2, h3, h4, h5, h6, h7⟩
  | lease ioOk =>
    simp only [poolStep]
    cases hlast : s.available.getLast? with
    | none =>
      by_cases hmax : maxC ≤ s.created
      · rw [if_pos hmax]
        exact ⟨h1, h2, h3, h4, h5, h6, h7⟩
      · rw [if_neg hmax]
        have hfresh : s.nextId ∉ s.inUse := fun hmem => absurd (h7 s.nextId hmem) (by omega)
        have hinv1 : PoolInv maxC
            ⟨s.created + 1, s.available, s.inUse ++ [s.nextId], s.nextId + 1⟩ := by
          refine ⟨?_, ?_, h3, ?_, ?_, ?_, ?_⟩
          · show s.created + 1 = s.available.length + (s.inUse ++ [s.nextId]).length
            simp only [List.length_append, List.length_singleton]
            omega
          · show s.created + 1 ≤ maxC
            omega
          · refine List.nodup_append.mpr ⟨h4, List.nodup_singleton _, ?_⟩
            intro x hx hxc
            rw [List.mem_singleton] at hxc
            exact hfresh (hxc ▸ hx)
          · intro x hx hxin
            rcases List.mem_append.mp hxin with hx1 | hx1
            · exact h5 x hx hx1
            · rw [List.mem_singleton] at hx1
              rw [hx1] at hx
              exact absurd (h6 s.nextId hx) (by omega)
          · intro x hx
            exact Nat.lt_succ_of_lt (h6 x hx)
          · intro x hx
            rcases List.mem_append.mp hx with hx1 | hx1
            · exact Nat.lt_succ_of_lt (h7 x hx1)
            · rw [List.mem_singleton] at hx1
              rw [hx1]
              exact Nat.lt_succ_self _
        cases ioOk
        · exact poolRelease_inv hinv1 (by simp)
        · exact hinv1
    | some c =>
      have hcm : c ∈ s.available := List.mem_of_getLast?_eq_some hlast
      have hne : s.available ≠ [] := List.ne_nil_of_mem hcm
      have hdecomp : s.available.dropLast ++ [c] = s.available := by
        have hgl := List.getLast?_eq_getLast s.available hne
        rw [hlast] at hgl
        have hcg : List.getLast s.available hne = c := by
          injection hgl with hgl2
          exact hgl2.symm
        rw [← hcg]
        exact List.dropLast_concat_getLast hne
      have h3d := List.nodup_append.mp (hdecomp ▸ h3)
      have hcnotin : c ∉ s.inUse := h5 c hcm
      have hinv1 : PoolInv maxC
          ⟨s.created, s.available.dropLast, s.inUse ++ [c], s.nextId⟩ := by
        refine ⟨?_, h2, h3d.1, ?_, ?_, ?_, ?_⟩
        · show s.created = s.available.dropLast.length + (s.inUse ++ [c]).length
          simp only [List.length_dropLast, List.length_append, List.length_singleton]
          have hpos : 1 ≤ s.available.length := List.length_pos.mpr hne
          omega
        · refine List.nodup_append.mpr ⟨h4, List.nodup_singleton _, ?_⟩
          intro x hx hxc
          rw [List.mem_singleton] at hxc
          exact hcnotin (hxc ▸ hx)
        · intro x hx hxin
          have hxa : x ∈ s.available := by
            rw [← hdecomp]
            exact List.mem_append.mpr (Or.inl hx)
          rcases List.mem_append.mp hxin with hx1 | hx1
          · exact h5 x hxa hx1
          · rw [List.mem_singleton] at hx1
            exact h3d.2.2 hx (by rw [hx1]; exact List.mem_singleton_self c)
        · intro x hx
          refine h6 x ?_
          rw [← hdecomp]
          exact List.mem_append.mpr (Or.inl hx)
        · intro x hx
          rcases List.mem_append.mp hx with hx1 | hx1
          · exact h7 x hx1
          · rw [List.mem_singleton] at hx1
            rw [hx1]
            exact h6 c hcm
      cases ioOk
      · exact poolRelease_inv hinv1 (by simp)
      · exact hinv1

theorem poolRun_inv (maxC : Nat) (ops : List PoolOp) : PoolInv maxC (poolRun maxC ops) := by
  have hgen : ∀ (l : List PoolOp) (s : PoolState), PoolInv maxC s →
      PoolInv maxC (l.foldl (poolStep maxC) s) := by
    intro l
    induction l with
    | nil => intro s hs; exact hs
    | cons op rest ih =>
      intro s hs
      exact ih _ (poolStep_inv hs op)
  exact hgen ops poolInit
    ⟨rfl, Nat.zero_le _, List.nodup_nil, List.nodup_nil,
      fun c hc => absurd hc (List.not_mem_nil c),
      fun c hc => absurd hc (List.not_mem_nil c),
      fun c hc => absurd hc (List.not_mem_nil c)⟩

/-- C3: pool accounting.  After every finite interleaving of
`get_connection` (with either outcome of its connect/probe phase),
`release` of a held connection, and `ConnectionPool.disconnect`, starting
from a freshly constructed pool with `max_connections` parameter `m`:
`created_connections` equals `|available| + |in_use|`, never exceeds the
normalized maximum (`m` if positive, else `INT32_MAX`), and `available`
and `in_use` are disjoint. -/
theorem C3_pool_accounting (m : Int) (ops : List PoolOp) :
    (poolRun (normMax m) ops).created
      = (poolRun (normMax m) ops).available.length + (poolRun (normMax m) ops).inUse.length ∧
    (poolRun (normMax m) ops).created ≤ normMax m ∧
    ∀ c ∈ (poolRun (normMax m) ops).available, c ∉ (poolRun (normMax m) ops).inUse := by
  obtain ⟨h1, h2, _, _, h5, _, _⟩ := poolRun_inv (normMax m) ops
  exact ⟨h1, h2, h5⟩

/-! ## Lease reconnect behaviour (C4) -/

/-- C4 counterexample: when the initial `connect()` fails with a transient
`ConnectionError` (e.g. `ConnectionRefusedError`), `get_connection`
performs zero reconnect attempts — the inner `except ConnectionError`
wraps only the `in_use()` probe, not the first `connect()` — contradicting
the claim that a transient connect failure triggers exactly one
reconnect. -/
theorem C4_counterexample :
    (get_connection_io ⟨.connErr, .idle, .ok, .idle⟩).reconnects = 0 ∧
    ¬((get_connection_io ⟨.connErr, .idle, .ok, .idle⟩).reconnects = 1) := by
  decide

/-- C4 as amended: exactly one reconnect happens iff the initial
`connect()` succeeded and the first probe either reported data present or
itself failed with a `ConnectionError`; a failure of the initial `connect`
is released and re-raised with no reconnect; if after the reconnect the
second probe still reports data present the lease fails with
`ConnectionNotReady`; and on any exception the connection is released
before the exception propagates. -/
theorem C4_lease_reconnect_amended (env : LeaseEnv) :
    ((get_connection_io env).reconnects
      = if env.connect1 = .ok ∧ (env.probe1 = .dataPresent ∨ env.probe1 = .connErr)
        then 1 else 0) ∧
    (env.connect1 ≠ .ok →
      get_connection_io env = ⟨false, some .connectFail, 0, true⟩) ∧
    (env.connect1 = .ok → (env.probe1 = .dataPresent ∨ env.probe1 = .connErr) →
      env.connect2 = .ok → env.probe2 = .dataPresent →
      (get_connection_io env).err = some .notReady) ∧
    ((get_connection_io env).released = true ↔ (get_connection_io env).err ≠ Option.none) := by
  obtain ⟨c1, p1, c2, p2⟩ := env
  cases c1 <;> cases p1 <;> cases c2 <;> cases p2 <;> decide

/-- Witness for the amended C4 at a concrete environment: connect succeeds,
both probes see stray data. -/
theorem C4_witness :
    (get_connection_io ⟨.ok, .dataPresent, .ok, .dataPresent⟩).err = some .notReady ∧
    ((get_connection_io ⟨.ok, .dataPresent, .ok, .dataPresent⟩).released = true ↔
      (get_connection_io ⟨.ok, .dataPresent, .ok, .dataPresent⟩).err ≠ Option.none) :=
  ⟨(C4_lease_reconnect_amended ⟨.ok, .dataPresent, .ok, .dataPresent⟩).2.2.1 rfl (Or.inl rfl)
      rfl rfl,
    (C4_lease_reconnect_amended ⟨.ok, .dataPresent, .ok, .dataPresent⟩).2.2.2⟩

/-! ## Auth handshake (C5) -/

/-- C5 (the code as written): whenever a password is configured, the auth
phase of `connect()` raises `TypeError` from the Cython-typed `tuple args`
parameter of `send_command` — `self.password` is a `str` — before any byte
is sent.  No auth command goes out, no `RuntimeError("Invalid password")`
(the code's stand-in for `AuthError`) is raised, and the connection is not
disconnected; moreover no path of this handshake ever compares the
response status against `"ok"`. -/
theorem C5_auth_type_error (p : String) (read1 : ReadOutcome) :
    connect_auth (some p) read1
      = { authSent := false, typeError := true, invalidPassword := false,
          disconnected := false } := rfl

/-! ## Response interpretation claims (C6, C8, C10) -/

theorem to_str_map_error {body : List (List Nat)} {e : PyExc}
    (h : to_str_map body = .error e) : e = .runtimeInvalid := by
  unfold to_str_map at h
  split at h
  · cases h; rfl
  · cases h

theorem to_int_map_error {body : List (List Nat)} {e : PyExc}
    (h : to_int_map body = .error e) : e = .runtimeInvalid := by
  unfold to_int_map at h
  split at h
  · cases h; rfl
  · cases h

theorem to_str_map_for_scan_error {body : List (List Nat)} {e : PyExc}
    (h : to_str_map_for_scan body = .error e) : e = .runtimeInvalid := by
  unfold to_str_map_for_scan at h
  split at h
  · cases h; rfl
  · split at h
    · cases h
    · cases h

theorem to_int_map_for_scan_error {body : List (List Nat)} {e : PyExc}
    (h : to_int_map_for_scan body = .error e) : e = .runtimeInvalid := by
  unfold to_int_map_for_scan at h
  split at h
  · cases h; rfl
  · split at h
    · cases h
    · cases h

theorem strMap_branch_ne_closed (body : List (List Nat)) :
    (to_str_map body).map RVal.strMap ≠ .error .connectionClosed := by
  cases hm : to_str_map body with
  | ok m => simp [hm, Except.map]
  | error e =>
    have he := to_str_map_error hm
    simp [hm, Except.map, he]

theorem intMap_branch_ne_closed (body : List (List Nat)) :
    (to_int_map body).map RVal.intMap ≠ .error .connectionClosed := by
  cases hm : to_int_map body with
  | ok m => simp [hm, Except.map]
  | error e =>
    have he := to_int_map_error hm
    simp [hm, Except.map, he]

theorem strMapScan_branch_ne_closed (body : List (List Nat)) :
    (to_str_map_for_scan body).map (fun p => RVal.strMapScan p.1 p.2)
      ≠ .error .connectionClosed := by
  cases hm : to_str_map_for_scan body with
  | ok m => simp [hm, Except.map]
  | error e =>
    have he := to_str_map_for_scan_error hm
    simp [hm, Except.map, he]

theorem intMapScan_branch_ne_closed (body : List (List Nat)) :
    (to_int_map_for_scan body).map (fun p => RVal.intMapScan p.1 p.2)
      ≠ .error .connectionClosed := by
  cases hm : to_int_map_for_scan body with
  | ok m => simp [hm, Except.map]
  | error e =>
    have he := to_int_map_for_scan_error hm
    simp [hm, Except.map, he]

theorem wrap_ok_ne_closed (cmd : String) (st : List Nat) (hst : st = okB)
    (body : List (List Nat)) :
    wrap_response cmd (st :: body) ≠ .error .connectionClosed := by
  intro h
  unfold wrap_response at h
  rw [if_neg (by simp)] at h
  simp only [List.headD_cons, List.tail_cons] at h
  rw [if_neg (by rw [hst]; decide), if_pos hst] at h
  by_cases h1 : cmd ∈ REQUEST_FOR_NO_RESPONSE
  · rw [if_pos h1] at h
    simp at h
  rw [if_neg h1] at h
  by_cases h2 : cmd ∈ REQUEST_FOR_INT_RESPONSE
  · rw [if_pos h2] at h
    cases hb : body.head? with
    | none => simp [hb] at h
    | some v =>
      cases hp : pyInt v with
      | none => simp [hb, hp] at h
      | some i => simp [hb, hp] at h
  rw [if_neg h2] at h
  by_cases h3 : cmd ∈ REQUEST_FOR_FLOAT_RESPONSE
  · rw [if_pos h3] at h
    cases hb : body.head? with
    | none => simp [hb] at h
    | some v => simp [hb] at h
  rw [if_neg h3] at h
  by_cases h4 : cmd ∈ REQUEST_FOR_BYTE_RESPONSE
  · rw [if_pos h4] at h
    cases hb : body.head? with
    | none => simp [hb] at h
    | some v => simp [hb] at h
  rw [if_neg h4] at h
  by_cases h5 : cmd ∈ REQUEST_FOR_LIST_RESPONSE
  · rw [if_pos h5] at h
    simp at h
  rw [if_neg h5] at h
  by_cases h6 : cmd ∈ REQUEST_FOR_STR_MAP_RESPONSE
  · rw [if_pos h6] at h
    exact strMap_branch_ne_closed body h
  rw [if_neg h6] at h
  by_cases h7 : cmd ∈ REQUEST_FOR_INT_MAP_RESPONSE
  · rw [if_pos h7] at h
    exact intMap_branch_ne_closed body h
  rw [if_neg h7] at h
  by_cases h8 : cmd ∈ REQUEST_FOR_STR_MAP_SCAN_RESPONSE
  · rw [if_pos h8] at h
    exact strMapScan_branch_ne_closed body h
  rw [if_neg h8] at h
  by_cases h9 : cmd ∈ REQUEST_FOR_INT_MAP_SCAN_RESPONSE
  · rw [if_pos h9] at h
    exact intMapScan_branch_ne_closed body h
  rw [if_neg h9] at h
  simp at h

/-- C6: `wrap_response` fails with `ConnectionClosed` iff the frame is
empty; a non-empty frame whose status is `b"not_found"` yields the absent
value for every command; a status that is neither `b"ok"` nor
`b"not_found"` fails with `RemoteError` carrying the status bytes for every
command.  (Hence the per-command shaping of the body is reached only under
an `b"ok"` status.) -/
theorem C6_interpret_status_handling (cmd : String) (resp : List (List Nat)) :
    (wrap_response cmd resp = .error .connectionClosed ↔ resp = []) ∧
    (∀ body, resp = notFoundB :: body → wrap_response cmd resp = .ok .none) ∧
    (∀ st body, resp = st :: body → st ≠ okB → st ≠ notFoundB →
      wrap_response cmd resp = .error (.remoteError st)) := by
  refine ⟨⟨?_, ?_⟩, ?_, ?_⟩
  · intro h
    cases hr : resp with
    | nil => rfl
    | cons st body =>
      exfalso
      rw [hr] at h
      by_cases hnf : st = notFoundB
      · subst hnf
        unfold wrap_response at h
        rw [if_neg (by simp)] at h
        simp only [List.headD_cons, List.tail_cons] at h
        simp at h
      · by_cases hok : st = okB
        · subst hok
          exact wrap_ok_ne_closed cmd okB rfl body h
        · unfold wrap_response at h
          rw [if_neg (by simp)] at h
          simp only [List.headD_cons, List.tail_cons] at h
          rw [if_neg hnf, if_neg hok] at h
          simp at h
  · intro h
    subst h
    rfl
  · intro body hr
    subst hr
    simp [wrap_response]
  · intro st body hr hok hnf
    subst hr
    unfold wrap_response
    rw [if_neg (by simp)]
    simp only [List.headD_cons, List.tail_cons]
    rw [if_neg hnf, if_neg hok]

/-- Witness for C6: empty frame, a `not_found` reply, and an error status,
all for the command `get`. -/
theorem C6_witness :
    wrap_response "get" [] = .error .connectionClosed ∧
    wrap_response "get" [notFoundB] = .ok .none ∧
    wrap_response "get" [[101, 114, 114]] = .error (.remoteError [101, 114, 114]) :=
  ⟨(C6_interpret_status_handling "get" []).1.mpr rfl,
    (C6_interpret_status_handling "get" [notFoundB]).2.1 [] rfl,
    (C6_interpret_status_handling "get" [[101, 114, 114]]).2.2 [101, 114, 114] [] rfl
      (by decide) (by decide)⟩

/-- C10: for every command name — including names that belong to none of
the nine response classes — a non-empty frame whose first blob is
`b"not_found"` makes `wrap_response` return the absent value; the class
membership lookup (whose fall-through raises the unknown-command error) is
reached only under an `b"ok"` status, so an unrecognized command with a
`not_found` reply silently yields the absent value. -/
theorem C10_not_found_bypasses_class_lookup (cmd : String) (body : List (List Nat)) :
    wrap_response cmd (notFoundB :: body) = .ok .none := by
  simp [wrap_response]

/-! ## Encoder claim (C7) -/

theorem encode_foldr (toks : List (List Nat)) :
    (toks.map encTok).flatten ++ [10]
      = toks.foldr (fun t acc => natDigits t.length ++ [10] ++ t ++ [10] ++ acc) [10] := by
  induction toks with
  | nil => simp
  | cons t ts ih =>
    simp only [List.map_cons, List.flatten_cons, List.foldr_cons, List.append_assoc, ← ih]
    simp [encTok, List.append_assoc]
    simp only [List.append_assoc, List.cons_append, List.singleton_append] at ih
    exact ih

/-- C7: for every command name and argument list (text, integer or bytes
arguments), the encoder emits, for each token, the decimal ASCII length, a
newline, the token, and a newline, followed by one extra newline
terminating the request — i.e. it coincides with the spec-side definition
`encodeSpec` — and the name `"delete"` is rewritten to `"del"`, so
`encode_command "delete" args` begins with the bytes `b"3\ndel\n"`. -/
theorem C7_encoder_format (cmd : String) (args : List Arg) :
    encode_command cmd args = encodeSpec cmd args ∧
    (encode_command "delete" args).take 6 = [51, 10, 100, 101, 108, 10] := by
  constructor
  · simp only [encode_command, encodeSpec]
    exact encode_foldr _
  · have hdel : encTok (utf8Bytes "del") = [51, 10, 100, 101, 108, 10] := rfl
    simp only [encode_command, if_pos rfl, List.map_cons, List.flatten_cons, hdel,
      List.append_assoc]
    exact List.take_left' rfl

/-! ## INT_MAP shaping claim (C8) -/

theorem wrap_int_map_branch (cmd : String) (body : List (List Nat))
    (h1 : cmd ∉ REQUEST_FOR_NO_RESPONSE) (h2 : cmd ∉ REQUEST_FOR_INT_RESPONSE)
    (h3 : cmd ∉ REQUEST_FOR_FLOAT_RESPONSE) (h4 : cmd ∉ REQUEST_FOR_BYTE_RESPONSE)
    (h5 : cmd ∉ REQUEST_FOR_LIST_RESPONSE) (h6 : cmd ∉ REQUEST_FOR_STR_MAP_RESPONSE)
    (h7 : cmd ∈ REQUEST_FOR_INT_MAP_RESPONSE) :
    wrap_response cmd (okB :: body) = (to_int_map body).map RVal.intMap := by
  unfold wrap_response
  rw [if_neg (by simp)]
  simp only [List.headD_cons, List.tail_cons]
  rw [if_pos trivial, if_neg h1, if_neg h2, if_neg h3, if_neg h4,
    if_neg h5, if_neg h6, if_pos h7]
  rw [if_neg (by decide)]

theorem dictFold_nodup {α : Type} : ∀ (ps : List (List Nat × α)) (m : List (List Nat × α)),
    (m.map Prod.fst ++ ps.map Prod.fst).Nodup →
    ps.foldl (fun acc p => dictInsert acc p.1 p.2) m = m ++ ps := by
  intro ps
  induction ps with
  | nil =>
    intro m _
    simp
  | cons p ps ih =>
    intro m hnd
    have hkey : p.1 ∉ m.map Prod.fst := by
      rcases List.nodup_append.mp hnd with ⟨_, _, hdisj⟩
      intro hmem
      exact hdisj hmem (by simp)
    have hins : dictInsert m p.1 p.2 = m ++ [p] := by
      unfold dictInsert
      rw [if_neg ?hany]
      case hany =>
        intro hany
        rcases List.any_eq_true.mp hany with ⟨q, hq, hq2⟩
        rw [decide_eq_true_iff] at hq2
        exact hkey (hq2 ▸ List.mem_map_of_mem Prod.fst hq)
    simp only [List.foldl_cons, hins]
    rw [ih (m ++ [p]) ?hnd2]
    · simp
    case hnd2 =>
      simp only [List.map_append, List.map_cons, List.map_nil] at hnd ⊢
      simpa using hnd

/-- C8: for every command in the INT_MAP class and every successful
(`b"ok"`) frame, an odd-length body fails with `ProtocolError`
(`RuntimeError("Invalid response")`); an even-length body yields the
insertion-ordered mapping built from the consecutive pairs, and when the
keys (the even-position blobs) are distinct that mapping is exactly the
ordered pair list whose value for each pair is the integer parsed from the
following blob when it is a nonempty all-ASCII-digit string, and `-1`
otherwise. -/
theorem C8_int_map_shape (cmd : String) (body : List (List Nat))
    (hcmd : cmd ∈ REQUEST_FOR_INT_MAP_RESPONSE) :
    (body.length % 2 = 1 → wrap_response cmd (okB :: body) = .error .runtimeInvalid) ∧
    (body.length % 2 = 0 →
      wrap_response cmd (okB :: body)
        = .ok (.intMap ((listPairs body).foldl (fun m p => dictInsert m p.1 (intCoerce p.2)) []))) ∧
    (body.length % 2 = 0 → ((listPairs body).map Prod.fst).Nodup →
      wrap_response cmd (okB :: body)
        = .ok (.intMap ((listPairs body).map (fun p => (p.1, intCoerce p.2))))) := by
  have hexcl : cmd ∉ REQUEST_FOR_NO_RESPONSE ∧ cmd ∉ REQUEST_FOR_INT_RESPONSE ∧
      cmd ∉ REQUEST_FOR_FLOAT_RESPONSE ∧ cmd ∉ REQUEST_FOR_BYTE_RESPONSE ∧
      cmd ∉ REQUEST_FOR_LIST_RESPONSE ∧ cmd ∉ REQUEST_FOR_STR_MAP_RESPONSE := by
    fin_cases hcmd <;>
      exact ⟨by decide, by decide, by decide, by decide, by decide, by decide⟩
  obtain ⟨h1, h2, h3, h4, h5, h6⟩ := hexcl
  have hbr := wrap_int_map_branch cmd body h1 h2 h3 h4 h5 h6 hcmd
  refine ⟨?_, ?_, ?_⟩
  · intro hodd
    rw [hbr]
    unfold to_int_map
    rw [if_pos (by omega)]
    rfl
  · intro heven
    rw [hbr]
    unfold to_int_map
    rw [if_neg (by omega)]
    rfl
  · intro heven hnd
    rw [hbr]
    unfold to_int_map
    rw [if_neg (by omega)]
    have hfold : (listPairs body).foldl (fun m p => dictInsert m p.1 (intCoerce p.2)) []
        = (listPairs body).map (fun p => (p.1, intCoerce p.2)) := by
      have hmapfold : ((listPairs body).map (fun p => (p.1, intCoerce p.2))).foldl
          (fun acc q => dictInsert acc q.1 q.2) []
          = (listPairs body).foldl (fun m p => dictInsert m p.1 (intCoerce p.2)) [] := by
        rw [List.foldl_map]
      rw [← hmapfold]
      have := dictFold_nodup ((listPairs body).map (fun p => (p.1, intCoerce p.2))) []
        (by simpa [List.map_map, Function.comp] using hnd)
      simpa using this
    rw [hfold]
    rfl

/-- Witness for C8 with the command `zrange`: the odd body `[b"a"]` fails
with `ProtocolError`, and the even body `[b"a", b"3", b"b", b"x"]` yields
the ordered mapping `a -> 3, b -> -1`. -/
theorem C8_witness :
    wrap_response "zrange" (okB :: [[97]]) = .error .runtimeInvalid ∧
    wrap_response "zrange" (okB :: [[97], [51], [98], [120]])
      = .ok (.intMap [([97], 3), ([98], -1)]) :=
  ⟨(C8_int_map_shape "zrange" [[97]] (by decide)).1 (by decide),
    (C8_int_map_shape "zrange" [[97], [51], [98], [120]] (by decide)).2.2 (by decide)
      (by decide)⟩

end SSDB
